import Mathlib

/-!
Verification development for the `odsutils` record-set engine.

Shallow embedding of the schema registry (`ods_standard.Standard`,
version A), the record store (`ODSInstance` in `ods_engine.py`), the
reconciliation algorithms (`ods_check.ODSCheck`) and the pure helpers in
`ods_tools.py`.  Python dictionaries are embedded as insertion-ordered
association lists, Python scalar values as an inductive `Value` type, and
fallible Python code as `Except PyErr` computations where each constructor
of `PyErr` names the Python exception class that the corresponding
source line can raise.
-/

namespace Ods

/-- Python exception classes that the embedded code can raise. -/
inductive PyErr
  | valueError
  | typeError
  | keyError
  | nameError
  | indexError
  | attributeError
  deriving DecidableEq, Repr

/-- Python scalar values as they occur in ODS records: JSON scalars
(`None`, `str`, number, `bool`) plus parsed `astropy.time.Time` objects,
which the embedding abstracts to an integer timeline (seconds). -/
inductive Value
  | none
  | str (s : String)
  | num (n : Int)
  | bool (b : Bool)
  | time (t : Int)
  deriving DecidableEq, Repr

/-- The three Python type constructors used in `Standard_Version_A.fields`. -/
inductive PyType
  | str
  | float
  | bool
  deriving DecidableEq, Repr

/-- A Python dict record: insertion-ordered association list. -/
abbrev Record := List (String × Value)

deriving instance DecidableEq for Except

/-- `rec[key]` lookup (first occurrence; Python dict keys are unique). -/
def rlookup : Record → String → Option Value
  | [], _ => Option.none
  | p :: r, k => if p.1 = k then some p.2 else rlookup r k

/-- The list of keys of a record, in insertion order. -/
def rkeys (r : Record) : List String := r.map Prod.fst

/-- `key in rec` membership test. -/
def hasKey (r : Record) (k : String) : Prop := k ∈ rkeys r

instance (r : Record) (k : String) : Decidable (hasKey r k) :=
  inferInstanceAs (Decidable (k ∈ rkeys r))

/-- `rec[key]` lookup raising `KeyError` when the key is absent. -/
def lookupE (r : Record) (k : String) : Except PyErr Value :=
  match rlookup r k with
  | some v => .ok v
  | Option.none => .error .keyError

/-- `rec[key] = v` dict assignment: overwrite in place if the key exists
(keeping its position), else append. -/
def rupdate : Record → String → Value → Record
  | [], k, v => [(k, v)]
  | p :: r, k, v => if p.1 = k then (k, v) :: r else p :: rupdate r k v

/-! ## Schema registry: `ods_standard.Standard_Version_A` -/

/-- `Standard_Version_A.fields`: field name to expected Python type, in
source order. -/
def ods_fields : List (String × PyType) :=
  [("site_id", .str),
   ("site_lat_deg", .float),
   ("site_lon_deg", .float),
   ("site_el_m", .float),
   ("src_id", .str),
   ("src_is_pulsar_bool", .bool),
   ("corr_integ_time_sec", .float),
   ("src_ra_j2000_deg", .float),
   ("src_dec_j2000_deg", .float),
   ("src_radius", .float),
   ("src_start_utc", .str),
   ("src_end_utc", .str),
   ("slew_sec", .float),
   ("trk_rate_dec_deg_per_sec", .float),
   ("trk_rate_ra_deg_per_sec", .float),
   ("freq_lower_hz", .float),
   ("freq_upper_hz", .float),
   ("notes", .str)]

/-- The keys of `ods_fields`, i.e. the valid field names. -/
def fieldKeys : List String := ods_fields.map Prod.fst

/-- `Standard_Version_A.sort_order_time`. -/
def sort_order_time : List String :=
  ["src_start_utc", "src_end_utc", "site_id", "site_lat_deg", "site_lon_deg", "site_el_m",
   "src_id", "src_is_pulsar_bool", "corr_integ_time_sec", "src_ra_j2000_deg",
   "src_dec_j2000_deg", "src_radius",
   "slew_sec", "trk_rate_dec_deg_per_sec", "trk_rate_ra_deg_per_sec",
   "freq_lower_hz", "freq_upper_hz", "notes"]

/-- `meta_fields['time_fields']`. -/
def time_fields : List String := ["src_start_utc", "src_end_utc"]

/-- `meta_fields['data_key']`. -/
def data_key : String := "ods_data"

/-- `transfer_keys['start']` (`Standard.start`). -/
def startField : String := "src_start_utc"

/-- `transfer_keys['stop']` (`Standard.stop`). -/
def stopField : String := "src_end_utc"

/-! ## Time model

`astropy.time.Time` is an external collaborator.  The embedding abstracts
an absolute timestamp to an integer number of seconds on a timeline that
is strictly monotone in the (year, month, day, hour, minute, second)
components, and models `Time(...)` parsing of the ISO-8601 strings that
the repository reads and writes (`YYYY-MM-DDTHH:MM[:SS]`). -/

/-- Seconds-on-a-timeline encoding of a date-time tuple (mixed radix,
strictly monotone in the lexicographic component order). -/
def toSec (y mo d h mi s : Nat) : Int :=
  ((((((y * 12 + (mo - 1)) * 31 + (d - 1)) * 24 + h) * 60 + mi) * 60 + s : Nat) : Int)

/-- Parse a run of decimal digits (the whole string must be digits). -/
def digitsToNat : List Char → Option Nat
  | [] => Option.none
  | cs =>
    if cs.all Char.isDigit then
      some (cs.foldl (fun a c => a * 10 + (c.toNat - 48)) 0)
    else Option.none

/-- Split a character list on a separator character. -/
def splitOnChar (sep : Char) : List Char → List (List Char)
  | [] => [[]]
  | c :: cs =>
    let r := splitOnChar sep cs
    if c = sep then [] :: r
    else
      match r with
      | [] => [[c]]
      | g :: gs => (c :: g) :: gs

/-- Model of `astropy.time.Time` parsing an ISO-8601 string
`YYYY-MM-DDTHH:MM[:SS]`; `none` models the `ValueError` astropy raises on
anything else. -/
def isoParse (s : String) : Option Int :=
  match splitOnChar 'T' s.toList with
  | [date, tim] =>
    (match splitOnChar '-' date, splitOnChar ':' tim with
     | [ys, ms, ds], [hs, mis] => do
       let y ← digitsToNat ys; let mo ← digitsToNat ms; let d ← digitsToNat ds
       let h ← digitsToNat hs; let mi ← digitsToNat mis
       if 1 ≤ mo ∧ mo ≤ 12 ∧ 1 ≤ d ∧ d ≤ 31 ∧ h ≤ 23 ∧ mi ≤ 59 then
         some (toSec y mo d h mi 0)
       else Option.none
     | [ys, ms, ds], [hs, mis, ss] => do
       let y ← digitsToNat ys; let mo ← digitsToNat ms; let d ← digitsToNat ds
       let h ← digitsToNat hs; let mi ← digitsToNat mis; let sec ← digitsToNat ss
       if 1 ≤ mo ∧ mo ≤ 12 ∧ 1 ≤ d ∧ d ≤ 31 ∧ h ≤ 23 ∧ mi ≤ 59 ∧ sec ≤ 59 then
         some (toSec y mo d h mi sec)
       else Option.none
     | _, _ => Option.none)
  | _ => Option.none

/-- Left-pad a numeral with zeros to the given width. -/
def padNum (width n : Nat) : String :=
  let s := toString n
  String.mk (List.replicate (width - s.length) '0') ++ s

/-- Model of `t.datetime.isoformat(timespec='seconds')`: format the
integer timeline value back into `YYYY-MM-DDTHH:MM:SS`. -/
def isoFormat (t : Int) : String :=
  let n := t.toNat
  let s := n % 60
  let mi := (n / 60) % 60
  let h := (n / 3600) % 24
  let d := (n / 86400) % 31 + 1
  let mo := (n / (86400 * 31)) % 12 + 1
  let y := n / (86400 * 31 * 12)
  padNum 4 y ++ "-" ++ padNum 2 mo ++ "-" ++ padNum 2 d ++ "T" ++
    padNum 2 h ++ ":" ++ padNum 2 mi ++ ":" ++ padNum 2 s

/-- The timeline value of `Time.now()`; an arbitrary but fixed instant
(only used by the `'now'` special case of `tools.make_time`). -/
def nowTime : Int := toSec 2025 10 12 0 0 0

/-- `ods_standard.REF_LATEST_TIME = '2026-12-31T23:59'` as a timeline value. -/
def refLatestSec : Int := toSec 2026 12 31 23 59 0

/-- `ods_standard.REF_EARLIEST_TIME = '2020-01-01T00:00'` as a timeline value. -/
def refEarliestSec : Int := toSec 2020 1 1 0 0 0

/-! ## `ods_tools` helpers -/

/-- `tools.make_time`: `'now'` maps to `Time.now()`; `Time(t)` accepts a
`Time` and ISO strings and raises `ValueError` on everything else
(`None`, numbers, booleans, unparseable strings); `make_time` re-raises
that as `ValueError`. -/
def make_time (v : Value) : Except PyErr Int :=
  match v with
  | .str s =>
    if s = "now" then .ok nowTime
    else
      match isoParse s with
      | some t => .ok t
      | Option.none => .error .valueError
  | .time t => .ok t
  | _ => .error .valueError

/-- `tools.time2str`: a `str` is returned unchanged; a `Time` is formatted
with `t.datetime.isoformat(timespec='seconds')`; any other value has no
`.datetime` attribute and raises `AttributeError`. -/
def time2str (v : Value) : Except PyErr Value :=
  match v with
  | .str s => .ok (.str s)
  | .time t => .ok (.str (isoFormat t))
  | _ => .error .attributeError

/-- Model of Python `float(string)` literal acceptance: optional sign,
digits with at most one decimal point, at least one digit (scientific
notation is omitted from the model; no claim exercises it). -/
def pyFloatParses (s : String) : Bool :=
  let cs := match s.toList with
    | '+' :: rest => rest
    | '-' :: rest => rest
    | rest => rest
  match splitOnChar '.' cs with
  | [intPart] => intPart ≠ [] ∧ intPart.all Char.isDigit
  | [intPart, fracPart] =>
    (intPart ≠ [] ∨ fracPart ≠ []) ∧ intPart.all Char.isDigit ∧ fracPart.all Char.isDigit
  | _ => false

/-- Python `str(v)` for the embedded values. -/
def pyStr (v : Value) : String :=
  match v with
  | .none => "None"
  | .str s => s
  | .num n => toString n
  | .bool true => "True"
  | .bool false => "False"
  | .time t => isoFormat t

/-- Calling one of the Python type constructors `str`/`float`/`bool` on a
value, as done by `self.ods_fields[key](rec[key])`: `str` and `bool`
accept everything; `float` accepts numbers and booleans, raises
`ValueError` on non-numeric strings and `TypeError` on `None` and `Time`
objects. -/
def pyCall (ty : PyType) (v : Value) : Except PyErr Unit :=
  match ty, v with
  | .str, _ => .ok ()
  | .bool, _ => .ok ()
  | .float, .num _ => .ok ()
  | .float, .bool _ => .ok ()
  | .float, .str s => if pyFloatParses s then .ok () else .error .valueError
  | .float, .none => .error .typeError
  | .float, .time _ => .error .typeError

/-! ## `Standard.valid` (ods_standard.py lines 104-150)

The source accumulates `(is_valid, msg)` through three loops: over the
record's keys, over the schema fields, and over the time fields.  Only
`ValueError` is caught inside the loops; a `TypeError` from a coercion or
a `KeyError` from `rec[key]` in the time loop propagates. -/

/-- First loop of `Standard.valid`: every supplied key must be a known
field and must not map to `None`. -/
def validLoop1 (rec : Record) (acc : Bool × List String) : Bool × List String :=
  rec.foldl
    (fun acc p =>
      if p.1 ∉ fieldKeys then
        (false, acc.2 ++ [p.1 ++ " not an ods_field"])
      else if p.2 = Value.none then
        (false, acc.2 ++ ["Value for " ++ p.1 ++ " is None"])
      else acc)
    acc

/-- One iteration of the second loop of `Standard.valid`: the schema
field must be present, and a present non-`None` value must be accepted by
the field's type constructor (only `ValueError` is caught). -/
def validLoop2Body (rec : Record) (acc : Bool × List String) (p : String × PyType) :
    Except PyErr (Bool × List String) :=
  if ¬ hasKey rec p.1 then
    .ok (false, acc.2 ++ ["Missing ODS field " ++ p.1])
  else
    let v := (rlookup rec p.1).getD Value.none
    if v ≠ Value.none then
      match pyCall p.2 v with
      | .ok _ => .ok acc
      | .error .valueError =>
        .ok (false, acc.2 ++ [pyStr v ++ " is wrong type for " ++ p.1])
      | .error e => .error e
    else .ok acc

/-- Second loop of `Standard.valid`, over all schema fields. -/
def validLoop2 (rec : Record) (acc : Bool × List String) :
    Except PyErr (Bool × List String) :=
  ods_fields.foldlM (validLoop2Body rec) acc

/-- One iteration of the time loop of `Standard.valid`: the time field's
value must be accepted by `tools.make_time`.  `rec[key]` itself is not
guarded, so a missing time field raises `KeyError`. -/
def validLoop3Body (rec : Record) (acc : Bool × List String) (k : String) :
    Except PyErr (Bool × List String) := do
  let v ← lookupE rec k
  match make_time v with
  | .ok _ => .ok acc
  | .error .valueError =>
    .ok (false,
      acc.2 ++ [pyStr v ++ " is not a valid astropy.time.Time input format"])
  | .error e => .error e

/-- Third loop of `Standard.valid`, over the time fields. -/
def validLoop3 (rec : Record) (acc : Bool × List String) :
    Except PyErr (Bool × List String) :=
  time_fields.foldlM (validLoop3Body rec) acc

/-- `Standard.valid(rec)`: returns `(is_valid, msg)` or propagates an
uncaught exception. -/
def valid (rec : Record) : Except PyErr (Bool × List String) := do
  let acc := validLoop1 rec (true, [])
  let acc ← validLoop2 rec acc
  validLoop3 rec acc

/-- A record whose values are JSON scalars (no parsed `Time` objects), as
any record arriving from the persisted wire format is. -/
def jsonRecord (rec : Record) : Bool :=
  rec.all (fun p => match p.2 with | .time _ => false | _ => true)

/-! ## Spec-side defect classes for the validation-completeness claim

These five counting functions follow the spec's words for the five
validation checks; they are compared against the embedded
`Standard.valid` above. -/

/-- Modelled from the spec: defect (a), a key of the record that is not a
known schema field. -/
def specDefectsA (rec : Record) : Nat :=
  rec.countP (fun p => decide (p.1 ∉ fieldKeys))

/-- Modelled from the spec: defect (b), a present known key whose value is
the absence marker `None`. -/
def specDefectsB (rec : Record) : Nat :=
  rec.countP (fun p => decide (p.1 ∈ fieldKeys) && decide (p.2 = Value.none))

/-- Modelled from the spec: defect (c), a schema field missing from the
record. -/
def specDefectsC (rec : Record) : Nat :=
  ods_fields.countP (fun p => decide (¬ hasKey rec p.1))

/-- Modelled from the spec: defect (d), a present non-null value that the
field's declared type constructor rejects. -/
def specDefectsD (rec : Record) : Nat :=
  ods_fields.countP (fun p =>
    decide (hasKey rec p.1) &&
    (match rlookup rec p.1 with
     | some v =>
       decide (v ≠ Value.none) &&
       (match pyCall p.2 v with | .error .valueError => true | _ => false)
     | Option.none => false))

/-- Modelled from the spec: defect (e), a time field whose value does not
parse as an absolute timestamp (a missing time field counts as a defect
here; `Standard.valid` never returns on such a record, see below). -/
def specDefectsE (rec : Record) : Nat :=
  time_fields.countP (fun k =>
    match rlookup rec k with
    | some v => match make_time v with | .error _ => true | .ok _ => false
    | Option.none => true)

/-- Modelled from the spec: total number of induced defects among the five
validation checks. -/
def specDefects (rec : Record) : Nat :=
  specDefectsA rec + specDefectsB rec + specDefectsC rec + specDefectsD rec +
    specDefectsE rec

/-! Proof-side descriptions of the three loops of `Standard.valid`: the
optional message each loop iteration appends. -/

/-- The message (if any) appended by one iteration of the first loop. -/
def step1 (p : String × Value) : Option String :=
  if p.1 ∉ fieldKeys then some (p.1 ++ " not an ods_field")
  else if p.2 = Value.none then some ("Value for " ++ p.1 ++ " is None")
  else Option.none

/-- The message (if any) appended by one iteration of the second loop. -/
def step2 (rec : Record) (p : String × PyType) : Option String :=
  if ¬ hasKey rec p.1 then some ("Missing ODS field " ++ p.1)
  else
    let v := (rlookup rec p.1).getD Value.none
    if v ≠ Value.none then
      match pyCall p.2 v with
      | .error .valueError => some (pyStr v ++ " is wrong type for " ++ p.1)
      | _ => Option.none
    else Option.none

/-- The message (if any) appended by one iteration of the time loop. -/
def step3 (rec : Record) (k : String) : Option String :=
  match rlookup rec k with
  | some v =>
    match make_time v with
    | .error _ => some (pyStr v ++ " is not a valid astropy.time.Time input format")
    | .ok _ => Option.none
  | Option.none => Option.none

/-- The reasons accumulated by the first loop. -/
def msgs1 (rec : Record) : List String := rec.filterMap step1

/-- The reasons accumulated by the second loop. -/
def msgs2 (rec : Record) : List String := ods_fields.filterMap (step2 rec)

/-- The reasons accumulated by the time loop. -/
def msgs3 (rec : Record) : List String := time_fields.filterMap (step3 rec)

/-- All reasons returned by a successful `Standard.valid` run. -/
def validMsgs (rec : Record) : List String := msgs1 rec ++ msgs2 rec ++ msgs3 rec

theorem validLoop1_eq (rec : Record) :
    ∀ b ms, validLoop1 rec (b, ms) = (b && (msgs1 rec).isEmpty, ms ++ msgs1 rec) := by
  induction rec with
  | nil => intro b ms; simp [validLoop1, msgs1]
  | cons p r ih =>
    intro b ms
    have hstep : validLoop1 (p :: r) (b, ms) = validLoop1 r
        (if p.1 ∉ fieldKeys then (false, ms ++ [p.1 ++ " not an ods_field"])
         else if p.2 = Value.none then (false, ms ++ ["Value for " ++ p.1 ++ " is None"])
         else (b, ms)) := rfl
    rw [hstep]
    by_cases h1 : p.1 ∈ fieldKeys
    · by_cases h2 : p.2 = Value.none
      · rw [if_neg (not_not_intro h1), if_pos h2, ih]
        have hm : msgs1 (p :: r) = ("Value for " ++ p.1 ++ " is None") :: msgs1 r := by
          simp [msgs1, List.filterMap_cons, step1, h1, h2]
        rw [hm]; simp
      · rw [if_neg (not_not_intro h1), if_neg h2, ih]
        have hm : msgs1 (p :: r) = msgs1 r := by
          simp [msgs1, List.filterMap_cons, step1, h1, h2]
        rw [hm]
    · rw [if_pos h1, ih]
      have hm : msgs1 (p :: r) = (p.1 ++ " not an ods_field") :: msgs1 r := by
        simp [msgs1, List.filterMap_cons, step1, h1]
      rw [hm]; simp

theorem rlookup_mem {rec : Record} {k : String} {v : Value}
    (h : rlookup rec k = some v) : (k, v) ∈ rec := by
  induction rec with
  | nil => simp [rlookup] at h
  | cons p r ih =>
    rcases p with ⟨pk, pv⟩
    by_cases hk : pk = k
    · subst hk
      simp only [rlookup, if_pos rfl] at h
      cases h
      exact List.mem_cons_self _ _
    · simp only [rlookup] at h
      rw [if_neg hk] at h
      exact List.mem_cons_of_mem _ (ih h)

theorem hasKey_rlookup {rec : Record} {k : String} (h : hasKey rec k) :
    ∃ v, rlookup rec k = some v := by
  induction rec with
  | nil => simp [hasKey, rkeys] at h
  | cons p r ih =>
    by_cases hk : p.1 = k
    · exact ⟨p.2, by simp [rlookup, hk]⟩
    · have : hasKey r k := by
        simp only [hasKey, rkeys, List.map_cons, List.mem_cons] at h
        rcases h with h | h
        · exact absurd h.symm hk
        · exact h
      rcases ih this with ⟨v, hv⟩
      exact ⟨v, by simp [rlookup, hk, hv]⟩

theorem jsonRecord_no_time {rec : Record} (hj : jsonRecord rec = true)
    {k : String} {v : Value} (h : rlookup rec k = some v) :
    ∀ t, v ≠ .time t := by
  intro t hvt
  subst hvt
  have hmem := rlookup_mem h
  have := (List.all_eq_true.mp hj) _ hmem
  simp at this

theorem make_time_error {v : Value} {e : PyErr} (h : make_time v = .error e) :
    e = .valueError := by
  cases v <;> simp [make_time] at h <;> try exact h.symm
  case str s =>
    by_cases hs : s = "now"
    · simp [make_time, hs] at h
    · simp only [make_time, if_neg hs] at h
      cases hp : isoParse s <;> rw [hp] at h <;> simp at h
      exact h.symm

theorem pyCall_error {ty : PyType} {v : Value} {e : PyErr}
    (h : pyCall ty v = .error e) (hn : v ≠ Value.none)
    (ht : ∀ t, v ≠ .time t) : e = .valueError := by
  cases ty with
  | str => simp [pyCall] at h
  | bool => simp [pyCall] at h
  | float =>
    cases v with
    | none => exact absurd rfl hn
    | time t => exact absurd rfl (ht t)
    | num n => simp [pyCall] at h
    | bool b => simp [pyCall] at h
    | str s =>
      by_cases hs : pyFloatParses s
      · simp [pyCall, hs] at h
      · simp only [pyCall, if_neg hs] at h
        cases h
        rfl

theorem validLoop2Body_ok (rec : Record) (hj : jsonRecord rec = true)
    (p : String × PyType) (b : Bool) (ms : List String) :
    validLoop2Body rec (b, ms) p =
      .ok (match step2 rec p with
           | some m => (false, ms ++ [m])
           | Option.none => (b, ms)) := by
  unfold validLoop2Body step2
  by_cases h1 : hasKey rec p.1
  · rw [if_neg (not_not_intro h1), if_neg (not_not_intro h1)]
    rcases hasKey_rlookup h1 with ⟨v, hv⟩
    simp only [hv, Option.getD]
    by_cases h2 : v = Value.none
    · subst h2; simp
    · rw [if_pos h2, if_pos h2]
      cases hc : pyCall p.2 v with
      | ok u => simp [hc]
      | error e =>
        have he := pyCall_error hc h2 (jsonRecord_no_time hj hv)
        subst he
        simp [hc]
  · rw [if_pos h1, if_pos h1]

theorem validLoop2_fold (rec : Record) (hj : jsonRecord rec = true) :
    ∀ (fs : List (String × PyType)) (b : Bool) (ms : List String),
      List.foldlM (validLoop2Body rec) (b, ms) fs =
        .ok (b && (fs.filterMap (step2 rec)).isEmpty, ms ++ fs.filterMap (step2 rec)) := by
  intro fs
  induction fs with
  | nil =>
    intro b ms
    show Except.ok (b, ms) = _
    simp
  | cons p fs ih =>
    intro b ms
    have hstep : List.foldlM (validLoop2Body rec) (b, ms) (p :: fs) =
        validLoop2Body rec (b, ms) p >>= fun acc =>
          List.foldlM (validLoop2Body rec) acc fs := rfl
    rw [hstep, validLoop2Body_ok rec hj]
    cases hs : step2 rec p with
    | none =>
      show List.foldlM (validLoop2Body rec) (b, ms) fs = _
      rw [ih]
      simp [List.filterMap_cons, hs]
    | some m =>
      show List.foldlM (validLoop2Body rec) (false, ms ++ [m]) fs = _
      rw [ih]
      simp [List.filterMap_cons, hs]

/-- `validLoop2` under the loop-2 fold lemma. -/
theorem validLoop2_eq (rec : Record) (hj : jsonRecord rec = true)
    (b : Bool) (ms : List String) :
    validLoop2 rec (b, ms) = .ok (b && (msgs2 rec).isEmpty, ms ++ msgs2 rec) :=
  validLoop2_fold rec hj ods_fields b ms

theorem hasKey_of_rlookup {rec : Record} {k : String} {v : Value}
    (h : rlookup rec k = some v) : hasKey rec k := by
  have := rlookup_mem h
  simp only [hasKey, rkeys]
  exact List.mem_map_of_mem Prod.fst this

theorem rlookup_none {rec : Record} {k : String} (h : ¬ hasKey rec k) :
    rlookup rec k = Option.none := by
  cases hv : rlookup rec k with
  | none => rfl
  | some v => exact absurd (hasKey_of_rlookup hv) h

theorem validLoop3Body_ok (rec : Record) {k : String} (hk : hasKey rec k)
    (b : Bool) (ms : List String) :
    validLoop3Body rec (b, ms) k =
      .ok (match step3 rec k with
           | some m => (false, ms ++ [m])
           | Option.none => (b, ms)) := by
  rcases hasKey_rlookup hk with ⟨v, hv⟩
  have h0 : validLoop3Body rec (b, ms) k =
      (match make_time v with
       | .ok _ => .ok (b, ms)
       | .error .valueError =>
         .ok (false, ms ++ [pyStr v ++ " is not a valid astropy.time.Time input format"])
       | .error e => .error e) := by
    unfold validLoop3Body
    rw [show lookupE rec k = Except.ok v from by simp [lookupE, hv]]
    rfl
  rw [h0]
  cases hm : make_time v with
  | ok t => simp [step3, hv, hm]
  | error e =>
    have he := make_time_error hm
    subst he
    simp [step3, hv, hm]

theorem validLoop3Body_err (rec : Record) {k : String} (hk : ¬ hasKey rec k)
    (b : Bool) (ms : List String) :
    validLoop3Body rec (b, ms) k = .error .keyError := by
  unfold validLoop3Body
  rw [show lookupE rec k = Except.error .keyError from by
        simp [lookupE, rlookup_none hk]]
  rfl

theorem validLoop3_fold (rec : Record) :
    ∀ (ks : List String), (∀ k ∈ ks, hasKey rec k) →
      ∀ (b : Bool) (ms : List String),
        List.foldlM (validLoop3Body rec) (b, ms) ks =
          .ok (b && (ks.filterMap (step3 rec)).isEmpty, ms ++ ks.filterMap (step3 rec)) := by
  intro ks
  induction ks with
  | nil =>
    intro _ b ms
    show Except.ok (b, ms) = _
    simp
  | cons k ks ih =>
    intro hks b ms
    have hstep : List.foldlM (validLoop3Body rec) (b, ms) (k :: ks) =
        validLoop3Body rec (b, ms) k >>= fun acc =>
          List.foldlM (validLoop3Body rec) acc ks := rfl
    rw [hstep, validLoop3Body_ok rec (hks k (List.mem_cons_self k ks))]
    have htail : ∀ x ∈ ks, hasKey rec x := fun x hx => hks x (List.mem_cons_of_mem k hx)
    cases hs : step3 rec k with
    | none =>
      show List.foldlM (validLoop3Body rec) (b, ms) ks = _
      rw [ih htail]
      simp [List.filterMap_cons, hs]
    | some m =>
      show List.foldlM (validLoop3Body rec) (false, ms ++ [m]) ks = _
      rw [ih htail]
      simp [List.filterMap_cons, hs]

theorem validLoop3_fold_err (rec : Record) :
    ∀ (ks : List String), (∃ k ∈ ks, ¬ hasKey rec k) →
      ∀ (b : Bool) (ms : List String),
        List.foldlM (validLoop3Body rec) (b, ms) ks = .error .keyError := by
  intro ks
  induction ks with
  | nil => rintro ⟨k, hk, _⟩; simp at hk
  | cons k ks ih =>
    rintro ⟨k', hk', hmiss⟩ b ms
    by_cases hk : hasKey rec k
    · have htail : ∃ x ∈ ks, ¬ hasKey rec x := by
        rcases List.mem_cons.mp hk' with rfl | hmem
        · exact absurd hk hmiss
        · exact ⟨k', hmem, hmiss⟩
      have hstep : List.foldlM (validLoop3Body rec) (b, ms) (k :: ks) =
          validLoop3Body rec (b, ms) k >>= fun acc =>
            List.foldlM (validLoop3Body rec) acc ks := rfl
      rw [hstep, validLoop3Body_ok rec hk]
      cases hs : step3 rec k with
      | none =>
        show List.foldlM (validLoop3Body rec) (b, ms) ks = _
        exact ih htail b ms
      | some m =>
        show List.foldlM (validLoop3Body rec) (false, ms ++ [m]) ks = _
        exact ih htail false (ms ++ [m])
    · have hstep : List.foldlM (validLoop3Body rec) (b, ms) (k :: ks) =
          validLoop3Body rec (b, ms) k >>= fun acc =>
            List.foldlM (validLoop3Body rec) acc ks := rfl
      rw [hstep, validLoop3Body_err rec hk]
      rfl

/-- `validLoop3` succeeds and accumulates `msgs3` when both time fields
are present. -/
theorem validLoop3_eq (rec : Record) (h1 : hasKey rec startField)
    (h2 : hasKey rec stopField) (b : Bool) (ms : List String) :
    validLoop3 rec (b, ms) = .ok (b && (msgs3 rec).isEmpty, ms ++ msgs3 rec) := by
  unfold validLoop3
  apply validLoop3_fold
  intro k hk
  have hk2 : k = "src_start_utc" ∨ k = "src_end_utc" := by
    simpa [time_fields] using hk
  rcases hk2 with rfl | rfl
  · exact h1
  · exact h2

theorem msgs1_length (rec : Record) :
    (msgs1 rec).length = specDefectsA rec + specDefectsB rec := by
  induction rec with
  | nil => rfl
  | cons p r ih =>
    by_cases h1 : p.1 ∈ fieldKeys
    · by_cases h2 : p.2 = Value.none
      · simp only [msgs1, List.filterMap_cons, specDefectsA, specDefectsB,
          List.countP_cons, step1, if_neg (not_not_intro h1), if_pos h2] at *
        simp [h1, h2, ih]
        omega
      · simp only [msgs1, List.filterMap_cons, specDefectsA, specDefectsB,
          List.countP_cons, step1, if_neg (not_not_intro h1), if_neg h2] at *
        simp [h1, h2, ih]
    · simp only [msgs1, List.filterMap_cons, specDefectsA, specDefectsB,
        List.countP_cons, step1, if_pos h1] at *
      simp [h1, ih]
      omega

theorem filterMap_step2_length (rec : Record) :
    ∀ fs : List (String × PyType),
      (fs.filterMap (step2 rec)).length =
        fs.countP (fun p => decide (¬ hasKey rec p.1)) +
          fs.countP (fun p =>
            decide (hasKey rec p.1) &&
            (match rlookup rec p.1 with
             | some v =>
               decide (v ≠ Value.none) &&
               (match pyCall p.2 v with | .error .valueError => true | _ => false)
             | Option.none => false)) := by
  intro fs
  induction fs with
  | nil => rfl
  | cons p fs ih =>
    by_cases h1 : hasKey rec p.1
    · rcases hasKey_rlookup h1 with ⟨v, hv⟩
      by_cases h2 : v = Value.none
      · subst h2
        simp only [List.filterMap_cons, List.countP_cons, step2,
          if_neg (not_not_intro h1), hv, Option.getD]
        simp [h1, hv, ih]
      · cases hc : pyCall p.2 v with
        | ok u =>
          simp only [List.filterMap_cons, List.countP_cons, step2,
            if_neg (not_not_intro h1), hv, Option.getD, if_pos h2, hc]
          simp [h1, hv, hc, ih]
        | error e =>
          cases e with
          | valueError =>
            simp only [List.filterMap_cons, List.countP_cons, step2,
              if_neg (not_not_intro h1), hv, Option.getD, if_pos h2, hc]
            simp [h1, h2, hv, hc, ih]
            omega
          | typeError =>
            simp only [List.filterMap_cons, List.countP_cons, step2,
              if_neg (not_not_intro h1), hv, Option.getD, if_pos h2, hc]
            simp [h1, hv, hc, ih]
          | keyError =>
            simp only [List.filterMap_cons, List.countP_cons, step2,
              if_neg (not_not_intro h1), hv, Option.getD, if_pos h2, hc]
            simp [h1, hv, hc, ih]
          | nameError =>
            simp only [List.filterMap_cons, List.countP_cons, step2,
              if_neg (not_not_intro h1), hv, Option.getD, if_pos h2, hc]
            simp [h1, hv, hc, ih]
          | indexError =>
            simp only [List.filterMap_cons, List.countP_cons, step2,
              if_neg (not_not_intro h1), hv, Option.getD, if_pos h2, hc]
            simp [h1, hv, hc, ih]
          | attributeError =>
            simp only [List.filterMap_cons, List.countP_cons, step2,
              if_neg (not_not_intro h1), hv, Option.getD, if_pos h2, hc]
            simp [h1, hv, hc, ih]
    · simp only [List.filterMap_cons, List.countP_cons, step2, if_pos h1]
      simp [h1, ih]
      omega

theorem msgs2_length (rec : Record) :
    (msgs2 rec).length = specDefectsC rec + specDefectsD rec :=
  filterMap_step2_length rec ods_fields

theorem filterMap_step3_length (rec : Record) :
    ∀ ks : List String, (∀ k ∈ ks, hasKey rec k) →
      (ks.filterMap (step3 rec)).length =
        ks.countP (fun k =>
          match rlookup rec k with
          | some v => match make_time v with | .error _ => true | .ok _ => false
          | Option.none => true) := by
  intro ks
  induction ks with
  | nil => intro _; rfl
  | cons k ks ih =>
    intro hks
    rcases hasKey_rlookup (hks k (List.mem_cons_self k ks)) with ⟨v, hv⟩
    have htail : ∀ x ∈ ks, hasKey rec x := fun x hx => hks x (List.mem_cons_of_mem k hx)
    cases hm : make_time v with
    | ok t =>
      simp only [List.filterMap_cons, List.countP_cons, step3, hv, hm]
      simp [ih htail]
    | error e =>
      simp only [List.filterMap_cons, List.countP_cons, step3, hv, hm]
      simp [ih htail]

theorem msgs3_length (rec : Record) (h1 : hasKey rec startField)
    (h2 : hasKey rec stopField) :
    (msgs3 rec).length = specDefectsE rec := by
  apply filterMap_step3_length
  intro k hk
  have hk2 : k = "src_start_utc" ∨ k = "src_end_utc" := by
    simpa [time_fields] using hk
  rcases hk2 with rfl | rfl
  · exact h1
  · exact h2

theorem validMsgs_length (rec : Record) (h1 : hasKey rec startField)
    (h2 : hasKey rec stopField) :
    (validMsgs rec).length = specDefects rec := by
  have := msgs1_length rec
  have := msgs2_length rec
  have := msgs3_length rec h1 h2
  simp only [validMsgs, List.length_append, specDefects]
  omega

/-- `Standard.valid` on a JSON record containing both time fields:
returns `is_valid` true exactly when there are no defects, with the
accumulated reason list. -/
theorem valid_eq (rec : Record) (hj : jsonRecord rec = true)
    (h1 : hasKey rec startField) (h2 : hasKey rec stopField) :
    valid rec = .ok (decide (specDefects rec = 0), validMsgs rec) := by
  have h0 : valid rec =
      validLoop2 rec (validLoop1 rec (true, [])) >>= fun a => validLoop3 rec a := rfl
  rw [h0, validLoop1_eq, validLoop2_eq rec hj]
  show validLoop3 rec
      ((true && (msgs1 rec).isEmpty) && (msgs2 rec).isEmpty,
        ([] ++ msgs1 rec) ++ msgs2 rec) = _
  rw [validLoop3_eq rec h1 h2]
  have hbool : ∀ x y z : List String,
      (((true && x.isEmpty) && y.isEmpty) && z.isEmpty) =
        decide (x.length + y.length + z.length = 0) := by
    intro x y z
    cases x <;> cases y <;> cases z <;> simp
  have hlen : (msgs1 rec).length + (msgs2 rec).length + (msgs3 rec).length =
      specDefects rec := by
    have := msgs1_length rec
    have := msgs2_length rec
    have := msgs3_length rec h1 h2
    simp only [specDefects]
    omega
  rw [hbool, hlen]
  simp [validMsgs]

/-! ## Concrete records used by witnesses and counterexamples -/

/-- A complete schema-valid ODS record in string time form. -/
def recA : Record :=
  [("site_id", .str "hcro"), ("site_lat_deg", .num 40), ("site_lon_deg", .num (-121)),
   ("site_el_m", .num 986), ("src_id", .str "X"), ("src_is_pulsar_bool", .bool false),
   ("corr_integ_time_sec", .num 10), ("src_ra_j2000_deg", .num 15),
   ("src_dec_j2000_deg", .num 30), ("src_radius", .num 1),
   ("src_start_utc", .str "2025-01-01T10:00:00"), ("src_end_utc", .str "2025-01-01T11:00:00"),
   ("slew_sec", .num 10), ("trk_rate_dec_deg_per_sec", .num 0),
   ("trk_rate_ra_deg_per_sec", .num 0), ("freq_lower_hz", .num 1000),
   ("freq_upper_hz", .num 2000), ("notes", .str "n")]

/-- `recA` with an unknown key `foo` added and `src_id` nulled: exactly
two induced defects. -/
def recTwoDefects : Record :=
  ("foo", Value.str "bar") :: rupdate recA "src_id" Value.none

/-- C1 (amended).  For every record dict of JSON scalars that contains
both time fields, `Standard.valid` returns a verdict whose reason list
has exactly one entry per induced defect (no short-circuiting, nothing
extra) and whose `is_valid` flag is true exactly when there is no defect.
The amendment restricts the original claim to records containing the two
time fields: on a record lacking one, `Standard.valid` raises `KeyError`
instead of returning (see the counterexample). -/
theorem claim_C1_amended (rec : Record) (hj : jsonRecord rec = true)
    (h1 : hasKey rec startField) (h2 : hasKey rec stopField) :
    valid rec = .ok (decide (specDefects rec = 0), validMsgs rec) ∧
      (validMsgs rec).length = specDefects rec :=
  ⟨valid_eq rec hj h1 h2, validMsgs_length rec h1 h2⟩

/-- C1 witness: the amended theorem applied to a concrete record with two
induced defects (unknown key `foo`, null `src_id`). -/
theorem claim_C1_witness :
    (jsonRecord recTwoDefects = true ∧ hasKey recTwoDefects startField ∧
      hasKey recTwoDefects stopField ∧ specDefects recTwoDefects = 2) ∧
      (valid recTwoDefects =
        .ok (decide (specDefects recTwoDefects = 0), validMsgs recTwoDefects) ∧
        (validMsgs recTwoDefects).length = specDefects recTwoDefects) :=
  ⟨⟨by decide, by decide, by decide, by decide⟩,
   claim_C1_amended recTwoDefects (by decide) (by decide) (by decide)⟩

/-- C1 counterexample: the empty record has induced defects (every schema
field is missing), yet `Standard.valid` raises an uncaught `KeyError`
instead of returning `is_valid = false` with one reason per defect.  The
claim as stated is therefore false for this record. -/
theorem claim_C1_counterexample :
    0 < specDefects ([] : Record) ∧ valid ([] : Record) = .error .keyError := by
  constructor
  · decide
  · decide

/-- C10.  For every record dict of JSON scalars lacking at least one of
the schema's time fields, `Standard.valid` raises an uncaught `KeyError`
rather than returning a `(bool, reasons)` verdict. -/
theorem claim_C10_missing_time_raises (rec : Record) (hj : jsonRecord rec = true)
    (h : ¬ hasKey rec startField ∨ ¬ hasKey rec stopField) :
    valid rec = .error .keyError := by
  have h0 : valid rec =
      validLoop2 rec (validLoop1 rec (true, [])) >>= fun a => validLoop3 rec a := rfl
  rw [h0, validLoop1_eq, validLoop2_eq rec hj]
  show validLoop3 rec
      ((true && (msgs1 rec).isEmpty) && (msgs2 rec).isEmpty,
        ([] ++ msgs1 rec) ++ msgs2 rec) = _
  unfold validLoop3
  apply validLoop3_fold_err
  rcases h with h | h
  · exact ⟨startField, by decide, h⟩
  · exact ⟨stopField, by decide, h⟩

/-- A record missing both time fields. -/
def recNoTimes : Record := [("src_id", Value.str "X")]

/-- C10 witness: the theorem applied to a record lacking `src_start_utc`. -/
theorem claim_C10_witness :
    (jsonRecord recNoTimes = true ∧ ¬ hasKey recNoTimes startField) ∧
      valid recNoTimes = .error .keyError :=
  ⟨⟨by decide, by decide⟩,
   claim_C10_missing_time_raises recNoTimes (by decide) (Or.inl (by decide))⟩

/-! ## `tools.sort_entries` (ods_tools.py lines 212-247)

The Python sort key is a tuple of the string forms of the requested
terms, with the enumeration index appended unless `collapse` is true.
The embedding models the key as a pair of the string tuple and an
optional index (`⊥` in collapse mode); within one call every key has the
same shape, so the pair order below coincides with Python's tuple
comparison. -/

/-- A `sort_entries` dict key. -/
abbrev SKey := List String × WithBot ℕ

/-- Python tuple comparison on sort keys: lexicographic on the string
tuple (Python string comparison is code-point lexicographic, matching the
`List String` lexicographic order), then on the appended index. -/
def skLe (a b : SKey) : Prop := a.1 < b.1 ∨ (a.1 = b.1 ∧ a.2 ≤ b.2)

instance : DecidableRel skLe := fun a b => by
  unfold skLe
  infer_instance

instance : IsTrans SKey skLe where
  trans := by
    rintro a b c (h1 | ⟨h1, h1'⟩) (h2 | ⟨h2, h2'⟩)
    · exact Or.inl (lt_trans h1 h2)
    · exact Or.inl (h2 ▸ h1)
    · exact Or.inl (h1 ▸ h2)
    · exact Or.inr ⟨h1.trans h2, le_trans h1' h2'⟩

instance : IsTotal SKey skLe where
  total := by
    intro a b
    rcases lt_trichotomy a.1 b.1 with h | h | h
    · exact Or.inl (Or.inl h)
    · rcases le_total a.2 b.2 with h' | h'
      · exact Or.inl (Or.inr ⟨h, h'⟩)
      · exact Or.inr (Or.inr ⟨h.symm, h'⟩)
    · exact Or.inr (Or.inl h)

instance : IsAntisymm SKey skLe where
  antisymm := by
    rintro a b (h1 | ⟨h1, h1'⟩) (h2 | ⟨h2, h2'⟩)
    · exact absurd h2 (lt_asymm h1)
    · exact absurd h1 (h2 ▸ lt_irrefl _)
    · exact absurd h2 (h1 ▸ lt_irrefl _)
    · exact Prod.ext h1 (le_antisymm h1' h2')

/-- Monadic map for `Except`, structurally recursive (the embedding of a
Python loop or comprehension that can raise). -/
def mapE {α β : Type} (f : α → Except PyErr β) : List α → Except PyErr (List β)
  | [] => .ok []
  | a :: l => do
    let b ← f a
    let bs ← mapE f l
    .ok (b :: bs)

/-- The tuple of string forms `str(rec[key])` over the sort terms;
raises `KeyError` when a term is missing from the record. -/
def recSortKey (terms : List String) (r : Record) : Except PyErr (List String) :=
  mapE (fun k => do let v ← lookupE r k; .ok (pyStr v)) terms

/-- `entries[sort_key] = i`: overwrite the value if the key exists
(Python dicts keep the first-insertion position), else append. -/
def dictInsert (d : List (SKey × Nat)) (k : SKey) (i : Nat) : List (SKey × Nat) :=
  if d.any (fun q => decide (q.1 = k)) then
    d.map (fun q => if q.1 = k then (q.1, i) else q)
  else d ++ [(k, i)]

/-- The `for i, rec in enumerate(ods): entries[sort_key] = i` loop. -/
def buildDict : List SKey → Nat → List (SKey × Nat) → List (SKey × Nat)
  | [], _, d => d
  | k :: ks, i, d => buildDict ks (i + 1) (dictInsert d k i)

/-- `entries[key]` on the dict of sort keys (always present when used). -/
def dlookup (d : List (SKey × Nat)) (k : SKey) : Nat :=
  match d.find? (fun q => decide (q.1 = k)) with
  | some q => q.2
  | Option.none => 0

/-- `tools.sort_entries(ods, terms, collapse, reverse)`: build the dict
from sort-key tuples to (last) enumeration index, sort the distinct keys
(Python `sorted`, descending when `reverse`), and emit the records picked
by the dict in key order (`copy` is a shallow dict copy, the identity
here). -/
def sort_entries (ods : List Record) (terms : List String)
    (collapse : Bool) (reverse : Bool) : Except PyErr (List Record) := do
  let strs ← mapE (recSortKey terms) ods
  let ks : List SKey :=
    if collapse then strs.map (fun s => (s, (⊥ : WithBot ℕ)))
    else strs.enum.map (fun p => (p.2, (p.1 : WithBot ℕ)))
  let d := buildDict ks 0 []
  let sorted0 := List.insertionSort skLe (d.map Prod.fst)
  let sorted := if reverse then sorted0.reverse else sorted0
  .ok (sorted.map (fun k => ods.getD (dlookup d k) []))

/-! Dict lemmas for the dedup-idempotence proof. -/

theorem dictInsert_mem {d : List (SKey × Nat)} {k : SKey} {i : Nat}
    {p : SKey × Nat} (h : p ∈ dictInsert d k i) : p ∈ d ∨ p = (k, i) := by
  unfold dictInsert at h
  split at h
  · rcases List.mem_map.mp h with ⟨q, hq, hqe⟩
    by_cases hk : q.1 = k
    · right
      rw [if_pos hk] at hqe
      rw [← hqe, hk]
    · left
      rw [if_neg hk] at hqe
      exact hqe ▸ hq
  · rcases List.mem_append.mp h with h | h
    · exact Or.inl h
    · right
      simpa using h

theorem dictInsert_keys (d : List (SKey × Nat)) (k : SKey) (i : Nat) :
    (dictInsert d k i).map Prod.fst =
      if k ∈ d.map Prod.fst then d.map Prod.fst else d.map Prod.fst ++ [k] := by
  unfold dictInsert
  have hmem : (d.any (fun q => decide (q.1 = k)) = true) ↔ k ∈ d.map Prod.fst := by
    rw [List.any_eq_true]
    constructor
    · rintro ⟨q, hq, hqk⟩
      exact List.mem_map.mpr ⟨q, hq, by simpa using hqk⟩
    · rintro hk
      rcases List.mem_map.mp hk with ⟨q, hq, hqe⟩
      exact ⟨q, hq, by simpa using hqe⟩
  by_cases hk : k ∈ d.map Prod.fst
  · rw [if_pos (hmem.mpr hk), if_pos hk, List.map_map]
    apply List.map_congr_left
    intro q _
    by_cases hq : q.1 = k
    · simp [hq]
    · simp [hq]
  · rw [if_neg (fun hc => hk (hmem.mp hc)), if_neg hk]
    simp

theorem buildDict_mem :
    ∀ (ks : List SKey) (n : Nat) (d0 : List (SKey × Nat)) (p : SKey × Nat),
      p ∈ buildDict ks n d0 →
        p ∈ d0 ∨ ∃ j, ∃ hj : j < ks.length, p = (ks.get ⟨j, hj⟩, n + j) := by
  intro ks
  induction ks with
  | nil => intro n d0 p h; exact Or.inl h
  | cons k ks ih =>
    intro n d0 p h
    rcases ih (n + 1) (dictInsert d0 k n) p h with h | ⟨j, hj, hpe⟩
    · rcases dictInsert_mem h with h | h
      · exact Or.inl h
      · exact Or.inr ⟨0, by simp, by simpa using h⟩
    · refine Or.inr ⟨j + 1, by simpa using hj, ?_⟩
      rw [hpe]
      congr 1
      omega

theorem buildDict_keys_nodup :
    ∀ (ks : List SKey) (n : Nat) (d0 : List (SKey × Nat)),
      (d0.map Prod.fst).Nodup → ((buildDict ks n d0).map Prod.fst).Nodup := by
  intro ks
  induction ks with
  | nil => intro n d0 h; exact h
  | cons k ks ih =>
    intro n d0 h
    apply ih
    rw [dictInsert_keys]
    by_cases hk : k ∈ d0.map Prod.fst
    · rwa [if_pos hk]
    · rw [if_neg hk]
      refine List.Nodup.append h (List.nodup_singleton k) ?_
      simpa [List.disjoint_singleton] using hk

theorem dlookup_eq {d : List (SKey × Nat)} (hn : (d.map Prod.fst).Nodup)
    {k : SKey} {i : Nat} (h : (k, i) ∈ d) : dlookup d k = i := by
  induction d with
  | nil => simp at h
  | cons q d ih =>
    rcases List.mem_cons.mp h with h | h
    · subst h
      simp [dlookup, List.find?]
    · have hq : q.1 ≠ k := by
        intro hc
        have hkmem : k ∈ d.map Prod.fst := List.mem_map.mpr ⟨(k, i), h, rfl⟩
        rw [List.map_cons, hc] at hn
        exact (List.nodup_cons.mp hn).1 hkmem
      have htail := ih (by rw [List.map_cons] at hn; exact (List.nodup_cons.mp hn).2) h
      unfold dlookup at htail ⊢
      rw [List.find?_cons_of_neg _ (by simpa using hq)]
      exact htail

theorem mapE_ok_get {α β : Type} (f : α → Except PyErr β) :
    ∀ (l : List α) (r : List β), mapE f l = .ok r →
      r.length = l.length ∧
        ∀ (i : Nat) (b : β), r.get? i = some b →
          ∃ a, l.get? i = some a ∧ f a = .ok b := by
  intro l
  induction l with
  | nil =>
    intro r h
    cases h
    exact ⟨rfl, by intro i b h; simp at h⟩
  | cons a l ih =>
    intro r h
    unfold mapE at h
    cases hfa : f a with
    | error e => rw [hfa] at h; cases h
    | ok b =>
      rw [hfa] at h
      cases hml : mapE f l with
      | error e => rw [hml] at h; cases h
      | ok bs =>
        rw [hml] at h
        cases h
        rcases ih bs hml with ⟨hlen, hget⟩
        constructor
        · simp [hlen]
        · intro i c hc
          cases i with
          | zero =>
            refine ⟨a, rfl, ?_⟩
            simp only [List.get?] at hc
            cases hc
            exact hfa
          | succ i =>
            simp only [List.get?] at hc ⊢
            exact hget i c hc

theorem mapE_ok_of_forall {α β : Type} (f : α → Except PyErr β) (g : α → β) :
    ∀ (l : List α), (∀ a ∈ l, f a = .ok (g a)) → mapE f l = .ok (l.map g) := by
  intro l
  induction l with
  | nil => intro _; rfl
  | cons a l ih =>
    intro h
    unfold mapE
    rw [h a (List.mem_cons_self a l), ih (fun x hx => h x (List.mem_cons_of_mem a hx))]
    rfl

/-- The assoc list a run of fresh dict insertions produces: keys paired
with consecutive indices. -/
def zipFrom : List SKey → Nat → List (SKey × Nat)
  | [], _ => []
  | k :: ks, n => (k, n) :: zipFrom ks (n + 1)

theorem zipFrom_keys : ∀ (ks : List SKey) (n : Nat), (zipFrom ks n).map Prod.fst = ks := by
  intro ks
  induction ks with
  | nil => intro n; rfl
  | cons k ks ih => intro n; simp [zipFrom, ih]

theorem buildDict_of_fresh :
    ∀ (ks : List SKey) (n : Nat) (d0 : List (SKey × Nat)),
      (∀ k ∈ ks, k ∉ d0.map Prod.fst) → ks.Nodup →
        buildDict ks n d0 = d0 ++ zipFrom ks n := by
  intro ks
  induction ks with
  | nil => intro n d0 _ _; simp [buildDict, zipFrom]
  | cons k ks ih =>
    intro n d0 hfresh hnd
    have hk0 : k ∉ d0.map Prod.fst := hfresh k (List.mem_cons_self k ks)
    have hins : dictInsert d0 k n = d0 ++ [(k, n)] := by
      unfold dictInsert
      rw [if_neg]
      intro hc
      rcases List.any_eq_true.mp hc with ⟨q, hq, hqk⟩
      exact hk0 (List.mem_map.mpr ⟨q, hq, by simpa using hqk⟩)
    show buildDict ks (n + 1) (dictInsert d0 k n) = _
    rw [hins, ih (n + 1) (d0 ++ [(k, n)]) ?_ (List.nodup_cons.mp hnd).2]
    · simp [zipFrom]
    · intro x hx
      simp only [List.map_append, List.mem_append]
      rintro (hmem | hmem)
      · exact hfresh x (List.mem_cons_of_mem k hx) hmem
      · have : x = k := by simpa using hmem
        subst this
        exact (List.nodup_cons.mp hnd).1 hx

theorem zipFrom_dlookup :
    ∀ (ks : List SKey), ks.Nodup →
      ∀ (n : Nat) (j : Nat) (hj : j < ks.length),
        dlookup (zipFrom ks n) (ks.get ⟨j, hj⟩) = n + j := by
  intro ks
  induction ks with
  | nil => intro _ n j hj; simp at hj
  | cons k ks ih =>
    intro hnd n j hj
    cases j with
    | zero => simp [zipFrom, dlookup, List.find?]
    | succ j =>
      have hne : k ≠ ks.get ⟨j, by simpa using hj⟩ := by
        intro hc
        exact (List.nodup_cons.mp hnd).1 (hc ▸ List.get_mem ks _ _)
      show dlookup ((k, n) :: zipFrom ks (n + 1)) (ks.get ⟨j, _⟩) = _
      unfold dlookup
      rw [List.find?_cons_of_neg _ (by simpa using hne)]
      have := ih (List.nodup_cons.mp hnd).2 (n + 1) j (by simpa using hj)
      unfold dlookup at this
      rw [this]
      omega

theorem mapE_map {α β γ : Type} (f : β → Except PyErr γ) (g : α → β) :
    ∀ l : List α, mapE f (l.map g) = mapE (fun a => f (g a)) l := by
  intro l
  induction l with
  | nil => rfl
  | cons a l ih =>
    show mapE f (g a :: l.map g) = _
    unfold mapE
    rw [ih]

/-- The collapse-mode core of `sort_entries`, given the already computed
string tuples: dict, sorted distinct keys, and the picked records. -/
def sortCollapse (ods : List Record) (strs : List (List String)) : List Record :=
  let ks : List SKey := strs.map (fun s => (s, (⊥ : WithBot ℕ)))
  let d := buildDict ks 0 []
  let sorted := List.insertionSort skLe (d.map Prod.fst)
  sorted.map (fun k => ods.getD (dlookup d k) [])

theorem sort_entries_collapse_eq (terms : List String) (ods : List Record)
    (strs : List (List String)) (hs : mapE (recSortKey terms) ods = .ok strs) :
    sort_entries ods terms true false = .ok (sortCollapse ods strs) := by
  unfold sort_entries
  rw [hs]
  rfl

/-- C6.  The canonical-sort-collapse dedup primitive
(`sort_entries(..., collapse=True)` over the schema sort key, as used by
`cull_by_duplicate`) is idempotent: running it on its own output returns
that output unchanged (errors propagate identically on both sides). -/
theorem claim_C6_dedup_idempotent (ods : List Record) :
    (sort_entries ods sort_order_time true false).bind
        (fun ys => sort_entries ys sort_order_time true false) =
      sort_entries ods sort_order_time true false := by
  cases hs : mapE (recSortKey sort_order_time) ods with
  | error e =>
    have h1 : sort_entries ods sort_order_time true false = .error e := by
      unfold sort_entries
      rw [hs]
      rfl
    rw [h1]
    rfl
  | ok strs =>
    have h1 := sort_entries_collapse_eq sort_order_time ods strs hs
    rw [h1]
    show sort_entries (sortCollapse ods strs) sort_order_time true false = _
    -- abbreviations for the first pass
    set ks : List SKey := strs.map (fun s => (s, (⊥ : WithBot ℕ))) with hks
    set d := buildDict ks 0 [] with hd
    set sorted := List.insertionSort skLe (d.map Prod.fst) with hsorted
    have hys : sortCollapse ods strs = sorted.map (fun k => ods.getD (dlookup d k) []) := rfl
    set ys := sorted.map (fun k => ods.getD (dlookup d k) []) with hysdef
    -- structural facts about the first pass
    have hnodupkeys : (d.map Prod.fst).Nodup := buildDict_keys_nodup ks 0 [] (by simp)
    have hperm : List.Perm sorted (d.map Prod.fst) := List.perm_insertionSort skLe _
    have hnodup : sorted.Nodup := hperm.nodup_iff.mpr hnodupkeys
    have hsrt : List.Sorted skLe sorted := List.sorted_insertionSort skLe _
    rcases mapE_ok_get (recSortKey sort_order_time) ods strs hs with ⟨hlen, hget⟩
    -- every sorted key is a real dict entry whose record regenerates it
    have hkey : ∀ k ∈ sorted, k.2 = (⊥ : WithBot ℕ) ∧
        recSortKey sort_order_time (ods.getD (dlookup d k) []) = .ok k.1 := by
      intro k hk
      have hkd : k ∈ d.map Prod.fst := hperm.subset hk
      rcases List.mem_map.mp hkd with ⟨q, hq, hqk⟩
      rcases buildDict_mem ks 0 [] q hq with hq0 | ⟨j, hj, hqe⟩
      · simp at hq0
      · have hkj : k = ks.get ⟨j, hj⟩ := by rw [← hqk, hqe]
        have hkiq : q = (k, j) := by
          rw [hqe, ← hkj]
          congr 1
          omega
        have hdl : dlookup d k = j := dlookup_eq hnodupkeys (hkiq ▸ hq)
        have hj2 : j < strs.length := by simpa [hks] using hj
        have hksj : ks.get ⟨j, hj⟩ = (strs.get ⟨j, hj2⟩, (⊥ : WithBot ℕ)) := by
          show (strs.map (fun s => (s, (⊥ : WithBot ℕ)))).get ⟨j, _⟩ = _
          simp
        constructor
        · rw [hkj, hksj]
        · have hstr : strs.get? j = some (strs.get ⟨j, hj2⟩) := List.get?_eq_get hj2
          rcases hget j _ hstr with ⟨a, ha, hfa⟩
          have hja : j < ods.length := by
            rw [← hlen]
            exact hj2
          have hgd : ods.getD j [] = a := by
            have : ods.get? j = some a := ha
            rw [List.getD_eq_getElem?_getD]
            rw [← List.get?_eq_getElem?, this]
            rfl
          rw [hdl, hgd, hfa, hkj, hksj]
    -- the second pass over ys
    have hmap2 : mapE (recSortKey sort_order_time) ys = .ok (sorted.map Prod.fst) := by
      rw [hysdef, mapE_map]
      exact mapE_ok_of_forall _ _ sorted (fun k hk => (hkey k hk).2)
    have h2 := sort_entries_collapse_eq sort_order_time ys (sorted.map Prod.fst) hmap2
    rw [← hys] at h2
    rw [hys] at h2 ⊢
    rw [h2]
    -- now show the second sortCollapse is the identity on ys
    congr 1
    have hks2 : (sorted.map Prod.fst).map (fun s => (s, (⊥ : WithBot ℕ))) = sorted := by
      rw [List.map_map]
      have hcongr : sorted.map ((fun s : List String => (s, (⊥ : WithBot ℕ))) ∘ Prod.fst) =
          sorted.map id :=
        List.map_congr_left (fun k hk => by
          have hbot := (hkey k hk).1
          rcases k with ⟨k1, k2⟩
          simp only [Function.comp, id]
          simp only at hbot
          rw [hbot])
      rw [hcongr, List.map_id]
    have hd2 : buildDict ((sorted.map Prod.fst).map (fun s => (s, (⊥ : WithBot ℕ)))) 0 [] =
        zipFrom sorted 0 := by
      rw [hks2]
      rw [buildDict_of_fresh sorted 0 [] (fun k _ => by simp) hnodup]
      simp
    show (List.insertionSort skLe
        ((buildDict ((sorted.map Prod.fst).map (fun s => (s, (⊥ : WithBot ℕ)))) 0 []).map
          Prod.fst)).map
        (fun k => ys.getD
          (dlookup (buildDict ((sorted.map Prod.fst).map (fun s => (s, (⊥ : WithBot ℕ)))) 0 []) k)
          []) = ys
    rw [hd2, zipFrom_keys, hsrt.insertionSort_eq]
    have hyslen : ys.length = sorted.length := by rw [hysdef]; simp
    apply List.ext_get
    · simp [hyslen]
    · intro n h1 h2
      have hn : n < sorted.length := by simpa using h1
      have hdl2 : dlookup (zipFrom sorted 0) (sorted.get ⟨n, hn⟩) = n := by
        simpa using zipFrom_dlookup sorted hnodup 0 n hn
      have hgetmap : (sorted.map (fun k => ys.getD (dlookup (zipFrom sorted 0) k) [])).get
          ⟨n, h1⟩ = ys.getD (dlookup (zipFrom sorted 0) (sorted.get ⟨n, hn⟩)) [] := by
        simp
      rw [hgetmap, hdl2]
      rw [List.getD_eq_getElem?_getD, List.getElem?_eq_getElem (by rw [hyslen]; exact hn)]
      rfl

/-! ## The record store: `ODSInstance` (ods_engine.py lines 16-268) -/

/-- `ODSInstance` state.  `earliest`/`latest` are only assigned inside
`gen_info` (reading them earlier would be an `AttributeError` in Python);
they are initialised to `0` here and never read before `gen_info` sets
them. -/
structure Instance where
  name : String
  input : String
  entries : List Record
  valid_records : List Nat
  invalid_records : List (Nat × List String)
  number_of_records : Nat
  input_sets : List (String × List Value)
  time_format : String
  earliest : Int
  latest : Int
  deriving DecidableEq, Repr

/-- `ODSInstance.__init__`. -/
def freshInstance (name : String) : Instance :=
  { name := name
    input := "init"
    entries := []
    valid_records := []
    invalid_records := []
    number_of_records := 0
    input_sets := [("invalid", [])]
    time_format := "string"
    earliest := 0
    latest := 0 }

/-- Convert one record's time fields with `tools.make_time` (the body of
the `ODSInstance.make_time` loops for one entry). -/
def makeTimeRec (r : Record) : Except PyErr Record :=
  time_fields.foldlM
    (fun (r : Record) k => do
      let v ← lookupE r k
      let t ← make_time v
      .ok (rupdate r k (.time t)))
    r

/-- `ODSInstance.make_time`: a no-op when the store-level flag already
says `'time'`; otherwise sets the flag and converts every time field of
every entry (an exception mid-way is modeled as discarding the partial
state; no claim observes the post-exception state). -/
def inst_make_time (st : Instance) : Except PyErr Instance :=
  if st.time_format = "time" then .ok st
  else do
    let entries ← mapE makeTimeRec st.entries
    .ok { st with time_format := "time", entries := entries }

/-- Convert one record's time fields with `tools.time2str` (the body of
the `ODSInstance.convert_time_to_str` loops for one entry). -/
def timeToStrRec (r : Record) : Except PyErr Record :=
  time_fields.foldlM
    (fun (r : Record) k => do
      let v ← lookupE r k
      let s ← time2str v
      .ok (rupdate r k s))
    r

/-- `ODSInstance.convert_time_to_str`: the inverse of `make_time`, a
no-op when the flag already says `'string'`. -/
def convert_time_to_str (st : Instance) : Except PyErr Instance :=
  if st.time_format = "string" then .ok st
  else do
    let entries ← mapE timeToStrRec st.entries
    .ok { st with time_format := "string", entries := entries }

/-- `self.input_sets.setdefault(key, set()).add(val)`: create the bucket
when absent, then add the value to the set (sets modeled as lists without
duplicates, insertion-ordered). -/
def addToSets : List (String × List Value) → String → Value → List (String × List Value)
  | [], k, v => [(k, [v])]
  | p :: m, k, v =>
    if p.1 = k then (p.1, if v ∈ p.2 then p.2 else p.2 ++ [v]) :: m
    else p :: addToSets m k v

/-- `self.input_sets['invalid'].add(key)`: no `setdefault` here — raises
`KeyError` when the `'invalid'` bucket is absent (it is created in
`__init__` and only ever grows). -/
def addToInvalid (m : List (String × List Value)) (k : String) :
    Except PyErr (List (String × List Value)) :=
  if "invalid" ∈ m.map Prod.fst then .ok (addToSets m "invalid" (.str k))
  else .error .keyError

/-- One key/value item of one record in the `gen_info` scan: accumulate
the value into the input sets (or the unknown key into the `'invalid'`
bucket), and narrow earliest/latest from the start/stop fields.  A
non-`Time` value in a start/stop field makes the Python `<`/`>`
comparison against a `Time` raise `TypeError`. -/
def genInfoItem (acc : List (String × List Value) × Int × Int) (p : String × Value) :
    Except PyErr (List (String × List Value) × Int × Int) :=
  let (sets, e, l) := acc
  if p.1 ∈ fieldKeys then
    let sets := addToSets sets p.1 p.2
    if p.1 = startField then
      match p.2 with
      | .time t => .ok (sets, if t < e then t else e, l)
      | _ => .error .typeError
    else if p.1 = stopField then
      match p.2 with
      | .time t => .ok (sets, e, if t > l then t else l)
      | _ => .error .typeError
    else .ok (sets, e, l)
  else do
    let sets ← addToInvalid sets p.1
    .ok (sets, e, l)

/-- The accumulator of the `gen_info` record loop. -/
structure GenAcc where
  sets : List (String × List Value)
  earliest : Int
  latest : Int
  valid_records : List Nat
  invalid_records : List (Nat × List String)
  ctr : Nat
  deriving DecidableEq, Repr

/-- One record of the `gen_info` scan: the item loop over the record,
then `Standard.valid` deciding the valid/invalid partition. -/
def genInfoStep (acc : GenAcc) (r : Record) : Except PyErr GenAcc := do
  let (sets, e, l) ←
    List.foldlM genInfoItem (acc.sets, acc.earliest, acc.latest) r
  let (b, msg) ← valid r
  if b then
    .ok { acc with
          sets := sets,
          earliest := e,
          latest := l,
          valid_records := acc.valid_records ++ [acc.ctr],
          ctr := acc.ctr + 1 }
  else
    .ok { acc with
          sets := sets,
          earliest := e,
          latest := l,
          invalid_records := acc.invalid_records ++ [(acc.ctr, msg)],
          ctr := acc.ctr + 1 }

/-- `ODSInstance.gen_info` (ods_engine.py lines 98-139): converts to time
form, resets earliest/latest to the sentinel reference times, resets the
valid/invalid partition, then scans all records.  `input_sets` is *not*
reset — the scan only ever adds to whatever the previous state held. -/
def gen_info (st : Instance) : Except PyErr Instance := do
  let st ← inst_make_time st
  let acc0 : GenAcc :=
    { sets := st.input_sets, earliest := refLatestSec, latest := refEarliestSec,
      valid_records := [], invalid_records := [], ctr := 0 }
  let acc ← List.foldlM genInfoStep acc0 st.entries
  .ok { st with
        number_of_records := st.entries.length,
        valid_records := acc.valid_records,
        invalid_records := acc.invalid_records,
        input_sets := acc.sets,
        earliest := acc.earliest,
        latest := acc.latest }

/-- The persisted-collection payload: a JSON object holding record
arrays under string keys. -/
abbrev Payload := List (String × List Record)

/-- `input_ods_data[self.standard.data_key]`: `KeyError` when absent. -/
def plookupE (d : Payload) (k : String) : Except PyErr (List Record) :=
  match d.find? (fun q => decide (q.1 = k)) with
  | some q => .ok q.2
  | Option.none => .error .keyError

/-- `ODSInstance.read` on a dict input (ods_engine.py lines 60-96):
append the payload's records, run `gen_info` (which converts the whole
store to time form), then set `time_format = 'string'` — without
converting the entries back. -/
def inst_read_dict (st : Instance) (ods_input : Payload) :
    Except PyErr (Bool × Instance) := do
  let recs ← plookupE ods_input data_key
  let st := { st with input := "dictionary", entries := st.entries ++ recs }
  let st ← gen_info st
  .ok (true, { st with time_format := "string" })

/-- An in-memory file system for the JSON read/write boundary. -/
abbrev FileSys := List (String × Payload)

/-- `tools.read_json_file` (ods_tools.py lines 5-23): the first statement
`if not filename.endswith('.json')` references the local name `filename`,
but the parameter is spelled `file_name`; the name lookup raises
`NameError` before the file is opened, on every call. -/
def read_json_file (fs : FileSys) (file_name : String) : Except PyErr Payload :=
  .error .nameError

/-- `tools.write_json_file`: serialize the payload at the given path
(functional update of the file system). -/
def write_json_file (fs : FileSys) (file_name : String) (payload : Payload) : FileSys :=
  if fs.any (fun q => decide (q.1 = file_name)) then
    fs.map (fun q => if q.1 = file_name then (q.1, payload) else q)
  else fs ++ [(file_name, payload)]

/-- `ODSInstance.read` on a file-name input: `tools.read_json_file`, then
the same appending and bookkeeping as the dict path. -/
def inst_read_file (fs : FileSys) (st : Instance) (ods_input : String) :
    Except PyErr (Bool × Instance) := do
  let input_ods_data ← read_json_file fs ods_input
  let recs ← plookupE input_ods_data data_key
  let st := { st with input := ods_input, entries := st.entries ++ recs }
  let st ← gen_info st
  .ok (true, { st with time_format := "string" })

/-- `ODSInstance.write` (ods_engine.py lines 242-253): convert the store
to string form and dump `{data_key: entries}` to the file. -/
def inst_write (fs : FileSys) (st : Instance) (file_name : String) :
    Except PyErr (FileSys × Instance) := do
  let st ← convert_time_to_str st
  .ok (write_json_file fs file_name [(data_key, st.entries)], st)

/-! ## Engine operations (`ODS`, ods_engine.py) on the named store

The engine resolves `name` through `get_instance_name` and then mutates
`self.ods[name]`; the embedding operates on that store directly. -/

/-- `ODS.cull_by_time` (ods_engine.py lines 600-634).  An invalid
`cull_by` value only logs `logger.error(...)`; there is no `return`, so
execution continues and the loop behaves exactly like `'stale'` mode
(the `elif` comparing against the start time fires only for
`'inactive'`). -/
def cull_by_time (st : Instance) (cull_time : String) (cull_by : String) :
    Except PyErr Instance := do
  -- `if cull_by not in ['stale', 'inactive']: logger.error(...)` — no return
  let ct ← make_time (.str cull_time)
  let st ← inst_make_time st
  let culled ← List.foldlM
    (fun (acc : List Record) r => do
      let sv ← lookupE r stopField
      let addIt ←
        (match sv with
         | .time t =>
           if ct > t then .ok false
           else if cull_by = "inactive" then do
             let bv ← lookupE r startField
             match bv with
             | .time t2 => .ok (decide (¬ ct < t2))
             | _ => .error .typeError
           else .ok true
         | _ => (.error .typeError : Except PyErr Bool))
      .ok (if addIt then acc ++ [r] else acc))
    [] st.entries
  gen_info { st with entries := culled }

/-- `ODS.cull_by_invalid` (ods_engine.py lines 636-661).  Note the guard:
`if not len(self.ods[name].valid_records)` — when *no* record is valid it
logs "retaining all." and returns without removing anything; only when at
least one record is valid does it rebuild `entries` from the valid
indices. -/
def cull_by_invalid (st : Instance) : Except PyErr Instance := do
  let st ← gen_info st
  if st.valid_records.length = 0 then .ok st
  else do
    let culled ← mapE
      (fun i =>
        match st.entries.get? i with
        | some r => .ok r
        | Option.none => (.error .indexError : Except PyErr Record))
      st.valid_records
    gen_info { st with entries := culled }

/-! ## Reconciliation algorithms (`ODSCheck`, ods_check.py) -/

/-- What `ODSCheck.continuity` returns: for an invalid `adjust` it
returns its `ods` argument — the `ODSInstance` object itself, which the
caller then assigns to `entries`. -/
inductive ContinuityResult
  | instanceObject (st : Instance)
  | records (l : List Record)
  deriving DecidableEq, Repr

/-- `ODSCheck.continuity` (ods_check.py lines 202-238).  For a valid
`adjust`, the first statement is
`tools.sort_entries(ods, [ods.standard.start, ods.standard.stop])`, with
`ods` being the `ODSInstance` object itself rather than its `entries`
list; `sort_entries` immediately evaluates `enumerate(ods)`, and
`ODSInstance` defines neither `__iter__` nor `__getitem__`, so every such
call raises `TypeError` before any overlap is examined or adjusted. -/
def continuity (ods : Instance) (time_offset_sec : Int) (adjust : String) :
    Except PyErr ContinuityResult :=
  if ¬ (adjust = "start" ∨ adjust = "stop") then .ok (.instanceObject ods)
  else .error .typeError

/-- `ODSCheck.coverage` (ods_check.py lines 240-265): sorts the entries
by start/stop, computes the span bounds from the first and last sorted
record, then runs a scan loop whose body only prints `"CHECK"` (the loop
terminates for a positive step and never touches a result); the function
falls off the end, returning Python `None` — it produces no tick or
coverage-flag sequences. -/
def coverage (ods : Instance) (time_step_min : Int) : Except PyErr Unit := do
  let sorted ← sort_entries ods.entries [startField, stopField] false false
  let first ←
    match sorted.head? with
    | some r => .ok r
    | Option.none => (.error .indexError : Except PyErr Record)
  let last ←
    match sorted.getLast? with
    | some r => .ok r
    | Option.none => (.error .indexError : Except PyErr Record)
  let sv ← lookupE first startField
  let _ ← make_time sv
  let ev ← lookupE last stopField
  let _ ← make_time ev
  .ok ()

/-! ## Concrete stores for the engine-level claims -/

/-- A store holding the one valid record `recA` (10:00-11:00). -/
def stOneRecord : Instance := { freshInstance "primary" with entries := [recA] }

/-- `recA` with `src_id` nulled: an invalid record with parseable times. -/
def recInvalid : Record := rupdate recA "src_id" Value.none

/-- A store whose single record is invalid. -/
def stAllInvalid : Instance := { freshInstance "primary" with entries := [recInvalid] }

/-- A second record (source Y, 10:30-11:30) overlapping `recA`. -/
def recOverlap : Record :=
  rupdate (rupdate (rupdate recA "src_id" (Value.str "Y"))
      "src_start_utc" (Value.str "2025-01-01T10:30:00"))
    "src_end_utc" (Value.str "2025-01-01T11:30:00")

/-- A store with two overlapping records, the continuity scenario of the
spec. -/
def stOverlap : Instance := { freshInstance "primary" with entries := [recA, recOverlap] }

/-- Write a store to a json file and read the file back into a fresh
instance (the round-trip of the persisted format). -/
def roundTrip (fs : FileSys) (st : Instance) (path : String) :
    Except PyErr (Bool × Instance) := do
  let (fs2, _) ← inst_write fs st path
  inst_read_file fs2 (freshInstance "fresh") path

/-- C2 (code bug).  Writing a store of schema-valid records to the
persisted JSON format succeeds, but reading the file back never does:
`tools.read_json_file` references the undefined name `filename` (the
parameter is `file_name`) in its very first statement, so the read raises
`NameError` and the write/read round-trip fails for every store. -/
theorem claim_C2_roundtrip_raises :
    roundTrip [] stOneRecord "ods.json" = .error .nameError := by
  rfl

/-- C3 (code bug).  On a store with one record whose interval spans the
whole scan, `ODSCheck.coverage` returns Python `None` after printing
diagnostics: it produces no tick sequence, no 0/1 coverage flags and no
fraction (its only caller `plot_ods_coverage` passes keyword arguments
`starting`/`stopping` that `coverage` does not accept, raising
`TypeError` even before that). -/
theorem claim_C3_coverage_returns_none :
    stOneRecord.entries.length = 1 ∧ coverage stOneRecord 1 = .ok () := by
  constructor
  · rfl
  · rfl

/-- C4 (code bug).  On a store whose records are all invalid,
`cull_by_invalid` hits the flipped guard `if not len(valid_records)`,
logs "retaining all." and returns with every invalid record still in the
store: the single invalid record is retained, not removed. -/
theorem claim_C4_all_invalid_retained :
    (cull_by_invalid stAllInvalid).map
        (fun st => (st.entries.length, st.valid_records.length,
          st.invalid_records.length)) =
      .ok (1, 0, 1) := by
  rfl

/-- C5 (code bug).  On the spec's own continuity scenario (two records
10:00-11:00 and 10:30-11:30, offset 60 s, `adjust='stop'`),
`ODSCheck.continuity` raises `TypeError`: it passes the `ODSInstance`
object itself to `tools.sort_entries`, whose `enumerate(ods)` needs an
iterable.  No adjusted record list satisfying the monotonicity property
is ever produced. -/
theorem claim_C5_continuity_raises :
    stOverlap.entries.length = 2 ∧ continuity stOverlap 60 "stop" = .error .typeError := by
  constructor
  · rfl
  · rfl

/-- C9 (code bug).  `cull_by_time` with the unrecognized mode `'bogus'`
logs an error but keeps going (the guard has no `return`): on a store
with one stale record it removes that record, behaving exactly like
`'stale'` mode instead of being a no-op. -/
theorem claim_C9_invalid_mode_culls :
    stOneRecord.entries.length = 1 ∧
      (cull_by_time stOneRecord "2025-06-01T00:00:00" "bogus").map
        (fun st => st.entries.length) = .ok 0 := by
  constructor
  · rfl
  · rfl

/-! ## The time-representation flag (claim on `time_format`) -/

/-- Is the value a serialized (string) time? -/
def isStrVal : Value → Bool
  | .str _ => true
  | _ => false

/-- Is the value a parsed time? -/
def isTimeVal : Value → Bool
  | .time _ => true
  | _ => false

/-- Every time field of every entry satisfies the shape predicate. -/
def timeFieldsAll (pred : Value → Bool) (entries : List Record) : Bool :=
  entries.all (fun r => time_fields.all (fun k =>
    match rlookup r k with
    | some v => pred v
    | Option.none => false))

/-- The flag/representation correspondence the spec states: flag
`'string'` means every time field of every entry is a string, flag
`'time'` means every time field is a parsed time. -/
def repOK (st : Instance) : Bool :=
  if st.time_format = "string" then timeFieldsAll isStrVal st.entries
  else if st.time_format = "time" then timeFieldsAll isTimeVal st.entries
  else false

theorem rlookup_rupdate_self (r : Record) (k : String) (v : Value) :
    rlookup (rupdate r k v) k = some v := by
  induction r with
  | nil => simp [rupdate, rlookup]
  | cons p r ih =>
    by_cases hp : p.1 = k
    · simp [rupdate, hp, rlookup]
    · simp [rupdate, hp, rlookup, ih]

theorem rlookup_rupdate_other (r : Record) (k k' : String) (v : Value)
    (h : k ≠ k') : rlookup (rupdate r k v) k' = rlookup r k' := by
  induction r with
  | nil => simp [rupdate, rlookup, h]
  | cons p r ih =>
    by_cases hp : p.1 = k
    · simp [rupdate, hp, rlookup, h]
    · by_cases hp' : p.1 = k'
      · simp [rupdate, hp, rlookup, hp', Ne.symm h]
      · simp [rupdate, hp, rlookup, hp', ih]

/-- A per-field conversion fold (the loops of `ODSInstance.make_time` and
`convert_time_to_str` on one record): whatever it succeeds on has every
listed key updated to a value of the step's output shape, and every
other key untouched. -/
theorem foldStep_ok (step : Record → String → Except PyErr Record)
    (pred : Value → Bool)
    (hstep : ∀ r k r'', step r k = .ok r'' →
      ∃ s, r'' = rupdate r k s ∧ pred s = true) :
    ∀ (ks : List String) (r r' : Record), List.foldlM step r ks = .ok r' →
      (∀ k ∈ ks, ∃ s, rlookup r' k = some s ∧ pred s = true) ∧
      (∀ k', k' ∉ ks → rlookup r' k' = rlookup r k') := by
  intro ks
  induction ks with
  | nil =>
    intro r r' h
    have : r = r' := by
      have h' : (Except.ok r : Except PyErr Record) = .ok r' := h
      cases h'
      rfl
    subst this
    exact ⟨by simp, fun _ _ => rfl⟩
  | cons k ks ih =>
    intro r r' h
    have hstep2 : List.foldlM step r (k :: ks) =
        step r k >>= fun r1 => List.foldlM step r1 ks := rfl
    rw [hstep2] at h
    cases hs : step r k with
    | error e => rw [hs] at h; cases h
    | ok r1 =>
      rw [hs] at h
      have h1 : List.foldlM step r1 ks = .ok r' := h
      rcases hstep r k r1 hs with ⟨s, hr1, hpred⟩
      rcases ih r1 r' h1 with ⟨H1, H2⟩
      constructor
      · intro x hx
        rcases List.mem_cons.mp hx with rfl | hxs
        · by_cases hxks : x ∈ ks
          · exact H1 x hxks
          · refine ⟨s, ?_, hpred⟩
            rw [H2 x hxks, hr1]
            exact rlookup_rupdate_self r x s
        · exact H1 x hxs
      · intro k' hk'
        have hk'ks : k' ∉ ks := fun hc => hk' (List.mem_cons_of_mem k hc)
        have hk'k : k ≠ k' := fun hc => hk' (hc ▸ List.mem_cons_self k ks)
        rw [H2 k' hk'ks, hr1]
        exact rlookup_rupdate_other r k k' s hk'k

theorem makeTimeRec_shape {r r' : Record} (h : makeTimeRec r = .ok r') :
    ∀ k ∈ time_fields, ∃ s, rlookup r' k = some s ∧ isTimeVal s = true := by
  refine (foldStep_ok _ isTimeVal ?_ time_fields r r' h).1
  intro r0 k r'' hstep
  simp only at hstep
  cases hl : lookupE r0 k with
  | error e => rw [hl] at hstep; cases hstep
  | ok v =>
    rw [hl] at hstep
    cases hm : make_time v with
    | error e =>
      have : (Except.error e : Except PyErr Record) = .ok r'' := by
        rw [← hstep]
        show _ = (make_time v >>= fun t => Except.ok (rupdate r0 k (.time t)))
        rw [hm]
        rfl
      cases this
    | ok t =>
      refine ⟨.time t, ?_, rfl⟩
      have : (Except.ok (rupdate r0 k (.time t)) : Except PyErr Record) = .ok r'' := by
        rw [← hstep]
        show _ = (make_time v >>= fun t => Except.ok (rupdate r0 k (.time t)))
        rw [hm]
        rfl
      cases this
      rfl

theorem time2str_shape {v s : Value} (h : time2str v = .ok s) : isStrVal s = true := by
  cases v <;> simp [time2str] at h <;> subst h <;> rfl

theorem timeToStrRec_shape {r r' : Record} (h : timeToStrRec r = .ok r') :
    ∀ k ∈ time_fields, ∃ s, rlookup r' k = some s ∧ isStrVal s = true := by
  refine (foldStep_ok _ isStrVal ?_ time_fields r r' h).1
  intro r0 k r'' hstep
  simp only at hstep
  cases hl : lookupE r0 k with
  | error e => rw [hl] at hstep; cases hstep
  | ok v =>
    rw [hl] at hstep
    cases hm : time2str v with
    | error e =>
      have : (Except.error e : Except PyErr Record) = .ok r'' := by
        rw [← hstep]
        show _ = (time2str v >>= fun s => Except.ok (rupdate r0 k s))
        rw [hm]
        rfl
      cases this
    | ok s0 =>
      refine ⟨s0, ?_, time2str_shape hm⟩
      have : (Except.ok (rupdate r0 k s0) : Except PyErr Record) = .ok r'' := by
        rw [← hstep]
        show _ = (time2str v >>= fun s => Except.ok (rupdate r0 k s))
        rw [hm]
        rfl
      cases this
      rfl

theorem mapE_ok_mem {α β : Type} (f : α → Except PyErr β) :
    ∀ (l : List α) (l' : List β), mapE f l = .ok l' →
      ∀ b ∈ l', ∃ a ∈ l, f a = .ok b := by
  intro l
  induction l with
  | nil =>
    intro l' h b hb
    cases h
    simp at hb
  | cons a l ih =>
    intro l' h b hb
    unfold mapE at h
    cases hfa : f a with
    | error e => rw [hfa] at h; cases h
    | ok b0 =>
      rw [hfa] at h
      cases hml : mapE f l with
      | error e => rw [hml] at h; cases h
      | ok bs =>
        rw [hml] at h
        cases h
        rcases List.mem_cons.mp hb with rfl | hbs
        · exact ⟨a, List.mem_cons_self a l, hfa⟩
        · rcases ih bs hml b hbs with ⟨x, hx, hfx⟩
          exact ⟨x, List.mem_cons_of_mem a hx, hfx⟩

theorem timeFieldsAll_of_mapE {conv : Record → Except PyErr Record}
    {pred : Value → Bool}
    (hshape : ∀ {r r' : Record}, conv r = .ok r' →
      ∀ k ∈ time_fields, ∃ s, rlookup r' k = some s ∧ pred s = true)
    {entries entries' : List Record} (h : mapE conv entries = .ok entries') :
    timeFieldsAll pred entries' = true := by
  unfold timeFieldsAll
  rw [List.all_eq_true]
  intro r' hr'
  rcases mapE_ok_mem conv entries entries' h r' hr' with ⟨r, _, hconv⟩
  rw [List.all_eq_true]
  intro k hk
  rcases hshape hconv k hk with ⟨s, hs, hps⟩
  rw [hs]
  exact hps

/-- C7 (amended).  The conversion operations themselves respect the
store-level flag: `make_time` and `convert_time_to_str` are flag-guarded
whole-store no-ops when the store is already in the requested form, and
when they succeed they (re-)establish the flag/representation
correspondence `repOK`.  The original claim's "every store operation
(including read) preserves the correspondence" is false: `read` leaves
the flag at `'string'` while the time fields are parsed (see the
counterexample). -/
theorem claim_C7_amended :
    (∀ st : Instance, st.time_format = "time" → inst_make_time st = .ok st) ∧
    (∀ st : Instance, st.time_format = "string" → convert_time_to_str st = .ok st) ∧
    (∀ st st' : Instance, repOK st = true → inst_make_time st = .ok st' →
      st'.time_format = "time" ∧ repOK st' = true) ∧
    (∀ st st' : Instance, repOK st = true → convert_time_to_str st = .ok st' →
      st'.time_format = "string" ∧ repOK st' = true) := by
  have hmt : ∀ st : Instance, st.time_format = "time" → inst_make_time st = .ok st := by
    intro st h
    unfold inst_make_time
    rw [if_pos h]
  have hcv : ∀ st : Instance, st.time_format = "string" → convert_time_to_str st = .ok st := by
    intro st h
    unfold convert_time_to_str
    rw [if_pos h]
  refine ⟨hmt, hcv, ?_, ?_⟩
  · intro st st' hrep hconv
    by_cases hf : st.time_format = "time"
    · have := hmt st hf
      rw [this] at hconv
      cases hconv
      refine ⟨hf, hrep⟩
    · unfold inst_make_time at hconv
      rw [if_neg hf] at hconv
      cases hm : mapE makeTimeRec st.entries with
      | error e => rw [hm] at hconv; cases hconv
      | ok entries' =>
        rw [hm] at hconv
        cases hconv
        refine ⟨rfl, ?_⟩
        have hall := timeFieldsAll_of_mapE (fun h => makeTimeRec_shape h) hm
        simp [repOK, hall]
  · intro st st' hrep hconv
    by_cases hf : st.time_format = "string"
    · have := hcv st hf
      rw [this] at hconv
      cases hconv
      refine ⟨hf, hrep⟩
    · unfold convert_time_to_str at hconv
      rw [if_neg hf] at hconv
      cases hm : mapE timeToStrRec st.entries with
      | error e => rw [hm] at hconv; cases hconv
      | ok entries' =>
        rw [hm] at hconv
        cases hconv
        refine ⟨rfl, ?_⟩
        have hall := timeFieldsAll_of_mapE (fun h => timeToStrRec_shape h) hm
        simp [repOK, hall]

/-- The time-form image of `stOneRecord` under `inst_make_time`. -/
def stOneTimed : Instance :=
  { stOneRecord with
    time_format := "time",
    entries := [rupdate (rupdate recA "src_start_utc" (.time (toSec 2025 1 1 10 0 0)))
      "src_end_utc" (.time (toSec 2025 1 1 11 0 0))] }

/-- C7 witness: the amended theorem applied to the concrete store
`stOneRecord` (string form, `repOK` holds) and its time-form image. -/
theorem claim_C7_witness :
    (stOneRecord.time_format = "string" ∧ repOK stOneRecord = true ∧
      inst_make_time stOneRecord = .ok stOneTimed) ∧
      (convert_time_to_str stOneRecord = .ok stOneRecord ∧
        stOneTimed.time_format = "time" ∧ repOK stOneTimed = true) := by
  refine ⟨⟨rfl, by decide, by decide⟩, ?_, ?_, ?_⟩
  · exact claim_C7_amended.2.1 stOneRecord rfl
  · exact (claim_C7_amended.2.2.1 stOneRecord stOneTimed (by decide) (by decide)).1
  · exact (claim_C7_amended.2.2.1 stOneRecord stOneTimed (by decide) (by decide)).2

/-- Reading a persisted payload into a fresh instance. -/
def readBack : Except PyErr (Bool × Instance) :=
  inst_read_dict (freshInstance "primary") [(data_key, [recA])]

/-- C7 counterexample: after `read`, the store-level flag says
`'string'` while every time field holds a parsed time (`gen_info` ran
`make_time` and `read` then reset only the flag), so the claimed
flag/representation correspondence is violated by `read`. -/
theorem claim_C7_counterexample :
    readBack.map (fun p => (p.2.time_format, repOK p.2)) = .ok ("string", false) := by
  rfl

/-! ## Factoring `gen_info` for the aggregate-recomputation claim

Proof-side decomposition: one `gen_info` scan item splits into a pure
part (earliest/latest narrowing, which can raise) that does not depend on
the input sets, and a set-update part that cannot raise once the
`'invalid'` bucket exists. -/

/-- The earliest/latest narrowing an item performs (the part of
`genInfoItem` that does not touch the input sets). -/
def narrowEL (p : String × Value) (e l : Int) : Except PyErr (Int × Int) :=
  if p.1 ∈ fieldKeys then
    if p.1 = startField then
      match p.2 with
      | .time t => .ok (if t < e then t else e, l)
      | _ => .error .typeError
    else if p.1 = stopField then
      match p.2 with
      | .time t => .ok (e, if t > l then t else l)
      | _ => .error .typeError
    else .ok (e, l)
  else .ok (e, l)

/-- The input-set update an item performs. -/
def updSets (m : List (String × List Value)) (p : String × Value) :
    List (String × List Value) :=
  if p.1 ∈ fieldKeys then addToSets m p.1 p.2
  else addToSets m "invalid" (.str p.1)

theorem addToSets_preserves (m : List (String × List Value)) (k : String)
    (v : Value) (k0 : String) (h : k0 ∈ m.map Prod.fst) :
    k0 ∈ (addToSets m k v).map Prod.fst := by
  induction m with
  | nil => simp at h
  | cons p m ih =>
    by_cases hp : p.1 = k
    · simpa [addToSets, hp] using h
    · simp only [addToSets, if_neg hp, List.map_cons, List.mem_cons] at h ⊢
      rcases h with h0 | h0
      · exact Or.inl h0
      · exact Or.inr (ih h0)

theorem updSets_preserves (m : List (String × List Value)) (p : String × Value)
    (k0 : String) (h : k0 ∈ m.map Prod.fst) :
    k0 ∈ (updSets m p).map Prod.fst := by
  unfold updSets
  split
  · exact addToSets_preserves m p.1 p.2 k0 h
  · exact addToSets_preserves m "invalid" (.str p.1) k0 h

theorem genInfoItem_factor (m : List (String × List Value)) (e l : Int)
    (p : String × Value) (hb : "invalid" ∈ m.map Prod.fst) :
    genInfoItem (m, e, l) p = (narrowEL p e l).map (fun q => (updSets m p, q.1, q.2)) := by
  have hL : genInfoItem (m, e, l) p =
      (if p.1 ∈ fieldKeys then
        if p.1 = startField then
          match p.2 with
          | .time t => .ok (addToSets m p.1 p.2, if t < e then t else e, l)
          | _ => .error .typeError
        else if p.1 = stopField then
          match p.2 with
          | .time t => .ok (addToSets m p.1 p.2, e, if t > l then t else l)
          | _ => .error .typeError
        else .ok (addToSets m p.1 p.2, e, l)
      else
        addToInvalid m p.1 >>= fun sets => Except.ok (sets, e, l)) := rfl
  rw [hL]
  unfold narrowEL updSets
  by_cases h1 : p.1 ∈ fieldKeys
  · rw [if_pos h1, if_pos h1, if_pos h1]
    by_cases h2 : p.1 = startField
    · rw [if_pos h2, if_pos h2]
      cases p.2 <;> rfl
    · rw [if_neg h2, if_neg h2]
      by_cases h3 : p.1 = stopField
      · rw [if_pos h3, if_pos h3]
        cases p.2 <;> rfl
      · rw [if_neg h3, if_neg h3]
        rfl
  · rw [if_neg h1, if_neg h1, if_neg h1]
    unfold addToInvalid
    rw [if_pos hb]
    rfl

/-- The pure narrowing over one whole record. -/
def narrowEntry (r : Record) (e l : Int) : Except PyErr (Int × Int) :=
  List.foldlM (fun (q : Int × Int) p => narrowEL p q.1 q.2) (e, l) r

/-- The set updates over one whole record. -/
def updSetsRec (m : List (String × List Value)) (r : Record) :
    List (String × List Value) :=
  r.foldl updSets m

theorem updSetsRec_preserves (r : Record) :
    ∀ (m : List (String × List Value)) (k0 : String), k0 ∈ m.map Prod.fst →
      k0 ∈ (updSetsRec m r).map Prod.fst := by
  induction r with
  | nil => intro m k0 h; exact h
  | cons p r ih =>
    intro m k0 h
    exact ih (updSets m p) k0 (updSets_preserves m p k0 h)

theorem genInfoEntry_factor (r : Record) :
    ∀ (m : List (String × List Value)) (e l : Int),
      "invalid" ∈ m.map Prod.fst →
      List.foldlM genInfoItem (m, e, l) r =
        (narrowEntry r e l).map (fun q => (updSetsRec m r, q.1, q.2)) := by
  induction r with
  | nil => intro m e l _; rfl
  | cons p r ih =>
    intro m e l hb
    have hstep : List.foldlM genInfoItem (m, e, l) (p :: r) =
        genInfoItem (m, e, l) p >>= fun acc => List.foldlM genInfoItem acc r := rfl
    have hstep2 : narrowEntry (p :: r) e l =
        narrowEL p e l >>= fun q => narrowEntry r q.1 q.2 := rfl
    rw [hstep, hstep2, genInfoItem_factor m e l p hb]
    cases hn : narrowEL p e l with
    | error e0 => rfl
    | ok q =>
      show List.foldlM genInfoItem (updSets m p, q.1, q.2) r = _
      rw [ih (updSets m p) q.1 q.2 (updSets_preserves m p "invalid" hb)]
      rfl

/-- The pure accumulator of the `gen_info` record loop (everything except
the input sets). -/
structure PureAcc where
  earliest : Int
  latest : Int
  valid_records : List Nat
  invalid_records : List (Nat × List String)
  ctr : Nat
  deriving DecidableEq, Repr

/-- The pure part of one `gen_info` record step. -/
def pureStep (a : PureAcc) (r : Record) : Except PyErr PureAcc := do
  let (e, l) ← narrowEntry r a.earliest a.latest
  let (b, msg) ← valid r
  if b then
    .ok { a with
          earliest := e,
          latest := l,
          valid_records := a.valid_records ++ [a.ctr],
          ctr := a.ctr + 1 }
  else
    .ok { a with
          earliest := e,
          latest := l,
          invalid_records := a.invalid_records ++ [(a.ctr, msg)],
          ctr := a.ctr + 1 }

/-- Forget the sets of a `GenAcc`. -/
def pureOf (acc : GenAcc) : PureAcc :=
  ⟨acc.earliest, acc.latest, acc.valid_records, acc.invalid_records, acc.ctr⟩

/-- Recombine a pure accumulator with input sets. -/
def accOf (sets : List (String × List Value)) (a : PureAcc) : GenAcc :=
  ⟨sets, a.earliest, a.latest, a.valid_records, a.invalid_records, a.ctr⟩

theorem genInfoStep_factor (acc : GenAcc) (r : Record)
    (hb : "invalid" ∈ acc.sets.map Prod.fst) :
    genInfoStep acc r = (pureStep (pureOf acc) r).map (accOf (updSetsRec acc.sets r)) := by
  unfold genInfoStep pureStep
  simp only [pureOf]
  rw [genInfoEntry_factor r acc.sets acc.earliest acc.latest hb]
  cases hn : narrowEntry r acc.earliest acc.latest with
  | error e0 => rfl
  | ok q =>
    cases hv : valid r with
    | error e0 => rfl
    | ok bm =>
      rcases bm with ⟨b, msg⟩
      cases b
      · rfl
      · rfl

/-- The set updates over the whole record sequence. -/
def updSetsAll (m : List (String × List Value)) (entries : List Record) :
    List (String × List Value) :=
  entries.foldl updSetsRec m

theorem updSetsAll_preserves (entries : List Record) :
    ∀ (m : List (String × List Value)) (k0 : String), k0 ∈ m.map Prod.fst →
      k0 ∈ (updSetsAll m entries).map Prod.fst := by
  induction entries with
  | nil => intro m k0 h; exact h
  | cons r entries ih =>
    intro m k0 h
    exact ih (updSetsRec m r) k0 (updSetsRec_preserves r m k0 h)

theorem genInfoFold_factor (entries : List Record) :
    ∀ (acc : GenAcc), "invalid" ∈ acc.sets.map Prod.fst →
      List.foldlM genInfoStep acc entries =
        (List.foldlM pureStep (pureOf acc) entries).map
          (accOf (updSetsAll acc.sets entries)) := by
  induction entries with
  | nil => intro acc _; rfl
  | cons r entries ih =>
    intro acc hb
    have hstep : List.foldlM genInfoStep acc (r :: entries) =
        genInfoStep acc r >>= fun a => List.foldlM genInfoStep a entries := rfl
    have hstep2 : List.foldlM pureStep (pureOf acc) (r :: entries) =
        pureStep (pureOf acc) r >>= fun a => List.foldlM pureStep a entries := rfl
    rw [hstep, hstep2, genInfoStep_factor acc r hb]
    cases hp : pureStep (pureOf acc) r with
    | error e0 => rfl
    | ok pa =>
      show List.foldlM genInfoStep (accOf (updSetsRec acc.sets r) pa) entries = _
      rw [ih (accOf (updSetsRec acc.sets r) pa)
            (updSetsRec_preserves r acc.sets "invalid" hb)]
      rfl

/-- The `(flag, entries)` part of `inst_make_time`, independent of the
rest of the instance state. -/
def instMakeTimeCore (flag : String) (entries : List Record) :
    Except PyErr (String × List Record) :=
  if flag = "time" then .ok (flag, entries)
  else (mapE makeTimeRec entries).map (fun es => ("time", es))

theorem inst_make_time_factor (s : Instance) :
    inst_make_time s = (instMakeTimeCore s.time_format s.entries).map
      (fun p => { s with time_format := p.1, entries := p.2 }) := by
  unfold inst_make_time instMakeTimeCore
  by_cases h : s.time_format = "time"
  · rw [if_pos h, if_pos h]
    rfl
  · rw [if_neg h, if_neg h]
    cases hm : mapE makeTimeRec s.entries <;> rfl

/-- Everything `gen_info` computes except the input sets, as a function
of the record sequence and the representation flag alone. -/
def genInfoCore (flag : String) (entries : List Record) :
    Except PyErr (String × List Record × PureAcc) := do
  let p ← instMakeTimeCore flag entries
  let pa ← List.foldlM pureStep
    { earliest := refLatestSec, latest := refEarliestSec, valid_records := [],
      invalid_records := [], ctr := 0 } p.2
  .ok (p.1, p.2, pa)

theorem gen_info_factor (s : Instance)
    (hb : "invalid" ∈ s.input_sets.map Prod.fst) :
    gen_info s = (genInfoCore s.time_format s.entries).map
      (fun z => { s with
        time_format := z.1,
        entries := z.2.1,
        number_of_records := z.2.1.length,
        valid_records := z.2.2.valid_records,
        invalid_records := z.2.2.invalid_records,
        input_sets := updSetsAll s.input_sets z.2.1,
        earliest := z.2.2.earliest,
        latest := z.2.2.latest }) := by
  unfold gen_info genInfoCore
  rw [inst_make_time_factor s]
  cases hc : instMakeTimeCore s.time_format s.entries with
  | error e0 => rfl
  | ok p =>
    have hfold := genInfoFold_factor p.2
      ⟨s.input_sets, refLatestSec, refEarliestSec, [], [], 0⟩ hb
    have hpure : pureOf ⟨s.input_sets, refLatestSec, refEarliestSec, [], [], 0⟩ =
        (⟨refLatestSec, refEarliestSec, [], [], 0⟩ : PureAcc) := rfl
    rw [hpure] at hfold
    show (List.foldlM genInfoStep
        ⟨s.input_sets, refLatestSec, refEarliestSec, [], [], 0⟩ p.2 >>= _) = _
    rw [hfold]
    rw [show ((Except.ok p : Except PyErr (String × List Record)) >>= fun q =>
          (List.foldlM pureStep (⟨refLatestSec, refEarliestSec, [], [], 0⟩ : PureAcc) q.2 >>=
            fun pa => Except.ok (q.1, q.2, pa))) =
        (List.foldlM pureStep (⟨refLatestSec, refEarliestSec, [], [], 0⟩ : PureAcc) p.2 >>=
          fun pa => Except.ok (p.1, p.2, pa)) from rfl]
    cases hp : List.foldlM pureStep
        (⟨refLatestSec, refEarliestSec, [], [], 0⟩ : PureAcc) p.2 with
    | error e0 => rfl
    | ok pa => rfl

/-- The observed-value set of a field (`input_sets[key]`, empty when the
bucket is absent). -/
def setsGet (m : List (String × List Value)) (k : String) : List Value :=
  match m.find? (fun q => decide (q.1 = k)) with
  | some q => q.2
  | Option.none => []

theorem addToSets_mono (m : List (String × List Value)) (k : String) (v : Value)
    (k' : String) (v' : Value) (h : v' ∈ setsGet m k') :
    v' ∈ setsGet (addToSets m k v) k' := by
  induction m with
  | nil => simp [setsGet] at h
  | cons p m ih =>
    by_cases hp : p.1 = k
    · by_cases hp' : p.1 = k'
      · have hsg : setsGet (p :: m) k' = p.2 := by
          unfold setsGet
          rw [List.find?_cons_of_pos _ (by simpa using hp')]
        have hsg2 : setsGet (addToSets (p :: m) k v) k' =
            (if v ∈ p.2 then p.2 else p.2 ++ [v]) := by
          unfold addToSets setsGet
          rw [if_pos hp, List.find?_cons_of_pos _ (by simpa using hp')]
        rw [hsg2]
        rw [hsg] at h
        by_cases hv : v ∈ p.2
        · rwa [if_pos hv]
        · rw [if_neg hv]
          exact List.mem_append_left _ h
      · have hsg : setsGet (p :: m) k' = setsGet m k' := by
          unfold setsGet
          rw [List.find?_cons_of_neg _ (by simpa using hp')]
        have hsg2 : setsGet (addToSets (p :: m) k v) k' = setsGet m k' := by
          unfold addToSets setsGet
          rw [if_pos hp, List.find?_cons_of_neg _ (by simpa using hp')]
        rw [hsg2]
        rw [hsg] at h
        exact h
    · by_cases hp' : p.1 = k'
      · have hsg : setsGet (p :: m) k' = p.2 := by
          unfold setsGet
          rw [List.find?_cons_of_pos _ (by simpa using hp')]
        have hsg2 : setsGet (addToSets (p :: m) k v) k' = p.2 := by
          unfold addToSets setsGet
          rw [if_neg hp, List.find?_cons_of_pos _ (by simpa using hp')]
        rw [hsg2]
        rwa [hsg] at h
      · have hsg : setsGet (p :: m) k' = setsGet m k' := by
          unfold setsGet
          rw [List.find?_cons_of_neg _ (by simpa using hp')]
        have hcons : addToSets (p :: m) k v = p :: addToSets m k v := by
          simp [addToSets, hp]
        have hsg2 : setsGet (addToSets (p :: m) k v) k' =
            setsGet (addToSets m k v) k' := by
          rw [hcons]
          unfold setsGet
          rw [List.find?_cons_of_neg _ (by simpa using hp')]
        rw [hsg2]
        rw [hsg] at h
        exact ih h

theorem updSets_mono (m : List (String × List Value)) (p : String × Value)
    (k' : String) (v' : Value) (h : v' ∈ setsGet m k') :
    v' ∈ setsGet (updSets m p) k' := by
  unfold updSets
  split
  · exact addToSets_mono m p.1 p.2 k' v' h
  · exact addToSets_mono m "invalid" (.str p.1) k' v' h

theorem updSetsRec_mono (r : Record) :
    ∀ (m : List (String × List Value)) (k' : String) (v' : Value),
      v' ∈ setsGet m k' → v' ∈ setsGet (updSetsRec m r) k' := by
  induction r with
  | nil => intro m k' v' h; exact h
  | cons p r ih =>
    intro m k' v' h
    exact ih (updSets m p) k' v' (updSets_mono m p k' v' h)

theorem updSetsAll_mono (entries : List Record) :
    ∀ (m : List (String × List Value)) (k' : String) (v' : Value),
      v' ∈ setsGet m k' → v' ∈ setsGet (updSetsAll m entries) k' := by
  induction entries with
  | nil => intro m k' v' h; exact h
  | cons r entries ih =>
    intro m k' v' h
    exact ih (updSetsRec m r) k' v' (updSetsRec_mono r m k' v' h)

/-- C8 (amended).  After `gen_info`, the record sequence, the
valid/invalid partition, earliest, latest and the record count are
functions of the prior record sequence and time-representation flag
alone (any two stores agreeing on those agree on all of them, whatever
derived state they carried before); the per-field observed-value sets,
however, are *not* rebuilt from scratch: `gen_info` only adds to them,
so every previously observed value survives recomputation (see the
counterexample for a value surviving its record's removal). -/
theorem claim_C8_amended (s1 s2 : Instance)
    (he : s1.entries = s2.entries) (hf : s1.time_format = s2.time_format)
    (hb1 : "invalid" ∈ s1.input_sets.map Prod.fst)
    (hb2 : "invalid" ∈ s2.input_sets.map Prod.fst) :
    (∀ e, gen_info s1 = .error e ↔ gen_info s2 = .error e) ∧
    (∀ t1 t2, gen_info s1 = .ok t1 → gen_info s2 = .ok t2 →
      t1.entries = t2.entries ∧ t1.valid_records = t2.valid_records ∧
      t1.invalid_records = t2.invalid_records ∧ t1.earliest = t2.earliest ∧
      t1.latest = t2.latest ∧ t1.number_of_records = t2.number_of_records) ∧
    (∀ (k : String) (v : Value) t1, gen_info s1 = .ok t1 →
      v ∈ setsGet s1.input_sets k → v ∈ setsGet t1.input_sets k) := by
  have hg1 := gen_info_factor s1 hb1
  have hg2 := gen_info_factor s2 hb2
  rw [he, hf] at hg1
  refine ⟨?_, ?_, ?_⟩
  · intro e
    rw [hg1, hg2]
    cases genInfoCore s2.time_format s2.entries <;> simp [Except.map]
  · intro t1 t2 h1 h2
    rw [hg1] at h1
    rw [hg2] at h2
    cases hc : genInfoCore s2.time_format s2.entries with
    | error e0 => rw [hc] at h1; cases h1
    | ok z =>
      rw [hc] at h1 h2
      cases h1
      cases h2
      exact ⟨rfl, rfl, rfl, rfl, rfl, rfl⟩
  · intro k v t1 h1 hv
    rw [hg1] at h1
    cases hc : genInfoCore s2.time_format s2.entries with
    | error e0 => rw [hc] at h1; cases h1
    | ok z =>
      rw [hc] at h1
      cases h1
      exact updSetsAll_mono z.2.1 s1.input_sets k v hv

/-- A store with two records (sources X and Y). -/
def stTwo : Instance := { freshInstance "primary" with entries := [recA, recOverlap] }

/-- `stTwo` with different stale derived state (prior partition, bounds
and an extra observed value) but the same records and flag. -/
def stTwoAlt : Instance :=
  { stTwo with
    valid_records := [7],
    invalid_records := [(3, ["old reason"])],
    earliest := 5,
    latest := 9,
    input_sets := [("invalid", []), ("src_id", [Value.str "Z"])] }

/-- C8 witness: the amended theorem applied to `stTwo` and `stTwoAlt`,
two stores with equal records and flag but different prior derived
state; its first conjunct instantiated at `KeyError`. -/
theorem claim_C8_witness :
    (stTwo.entries = stTwoAlt.entries ∧ stTwo.time_format = stTwoAlt.time_format ∧
      "invalid" ∈ stTwo.input_sets.map Prod.fst ∧
      "invalid" ∈ stTwoAlt.input_sets.map Prod.fst) ∧
      (gen_info stTwo = .error PyErr.keyError ↔ gen_info stTwoAlt = .error PyErr.keyError) :=
  ⟨⟨rfl, rfl, by decide, by decide⟩,
   (claim_C8_amended stTwo stTwoAlt rfl rfl (by decide) (by decide)).1 PyErr.keyError⟩

/-- Run `gen_info` on the two-record store, drop the first record
(source X), run `gen_info` again, and report whether the observed-value
set of `src_id` still contains "X" and whether any remaining record
carries it. -/
def c8Scenario : Except PyErr (Bool × Bool) :=
  (gen_info stTwo).bind (fun st1 =>
    (gen_info { st1 with entries := st1.entries.drop 1 }).map (fun st3 =>
      (decide ((Value.str "X") ∈ setsGet st3.input_sets "src_id"),
       st3.entries.all (fun r => decide (rlookup r "src_id" ≠ some (.str "X"))))))

/-- C8 counterexample: after removing the record with `src_id = "X"` and
recomputing the aggregates, the per-field observed-value set for
`src_id` still contains "X" although no record in the sequence carries
it — `gen_info` does not rebuild the value sets from scratch, refuting
the claim that the derived state is determined by the current record
sequence alone. -/
theorem claim_C8_counterexample : c8Scenario = .ok (true, true) := by
  rfl

end Ods
